import Mathlib

/-!
Verification of `espaloma/graphs/legacy_force_field.py`.

Shallow embedding conventions:
* torch tensors of shape `(n, m)` become `Tensor2 := List (List ℚ)`;
  a tensor of shape `(n, 1)` is a `Tensor2` whose rows are singletons.
* physical quantities appear already converted to espaloma units
  (`value_in_unit` belongs to the external `simtk.unit` library, so every
  numeric field below carries a comment naming the unit it is expressed in).
* python dict assignment / lookup on node-data dicts becomes
  `dictSet` / `dictGet` (most recent assignment wins);
  dicts built by `dict(zip(...))` comprehensions become `pyDictGet`
  (the last pair for a key wins, matching dict-comprehension overwrite).
* python exceptions (`KeyError`, `AssertionError`, `NotImplementedError`)
  become `Except String`.
-/

namespace Esp

/-- Entries of torch tensors; floats are modelled as rationals. -/
abbrev Scalar := ℚ

/-- A two-dimensional tensor. -/
abbrev Tensor2 := List (List Scalar)

/-- `torch.zeros(n, m)`. -/
def zerosT (n m : Nat) : Tensor2 :=
  List.replicate n (List.replicate m 0)

/-- Read entry `(i, j)` of a 2-d tensor, `none` when out of range. -/
def getEntry? (t : Tensor2) (i j : Nat) : Option Scalar :=
  (t[i]?).bind (fun row => row[j]?)

/-- Write entry `(i, j)` of a 2-d tensor (`t[i, j] = v`). -/
def setEntry (t : Tensor2) (i j : Nat) (v : Scalar) : Tensor2 :=
  match t[i]? with
  | some row => t.set i (row.set j v)
  | none => t

/-- Overwrite row `i` of a 2-d tensor (`t[i] = v`, broadcasting a scalar
into a length-1 row of an `(n, 1)` tensor). -/
def setRow (t : Tensor2) (i : Nat) (row : List Scalar) : Tensor2 :=
  t.set i row

/-- Node-data dictionaries such as `g.nodes["n2"].data`. -/
abbrev DataDict := List (String × Tensor2)

/-- Dict lookup: the most recent assignment wins. -/
def dictGet (d : DataDict) (key : String) : Option Tensor2 :=
  match d with
  | [] => none
  | (k, v) :: rest => if k = key then some v else dictGet rest key

/-- Dict assignment `d[key] = v`. -/
def dictSet (d : DataDict) (key : String) (v : Tensor2) : DataDict :=
  (key, v) :: d

/-- Lookup in a dict built by a python dict literal / comprehension given as
a pair list in insertion order: the LAST pair for a key wins, because later
insertions overwrite earlier ones. -/
def pyDictGet {α β : Type} [DecidableEq α] : List (α × β) → α → Option β
  | [], _ => none
  | p :: ps, key =>
    match pyDictGet ps key with
    | some v => some v
    | none => if p.1 = key then some p.2 else none

/-- Positions table `{tuple(idxs): position for position, idxs in enumerate(...)}`:
the position of the LAST occurrence of a key (later positions overwrite). -/
def lastIdxOf {α : Type} [DecidableEq α] : List α → α → Option Nat
  | [], _ => none
  | x :: xs, a =>
    match lastIdxOf xs a with
    | some i => some (i + 1)
    | none => if x = a then some 0 else none

end Esp

namespace Esp

/-- One bond of an OpenMM `HarmonicBondForce`, as returned by
`force.getBondParameters(idx)`, with quantities already converted. -/
structure BondTerm where
  idx0 : Nat
  idx1 : Nat
  eq : Scalar -- equilibrium length in `esp.units.DISTANCE_UNIT`
  k : Scalar -- force constant in `esp.units.FORCE_CONSTANT_UNIT`
deriving DecidableEq

/-- One angle of an OpenMM `HarmonicAngleForce`
(`force.getAngleParameters(idx)`). -/
structure AngleTerm where
  idx0 : Nat
  idx1 : Nat
  idx2 : Nat
  eq : Scalar -- equilibrium angle in `esp.units.ANGLE_UNIT`
  k : Scalar -- force constant in `esp.units.ANGLE_FORCE_CONSTANT_UNIT`
deriving DecidableEq

/-- One proper-torsion Fourier term of an OpenMM `PeriodicTorsionForce`
(`force.getTorsionParameters(idx)`). -/
structure TorsionTerm where
  idx0 : Nat
  idx1 : Nat
  idx2 : Nat
  idx3 : Nat
  periodicity : Scalar -- dimensionless integer, stored into a float tensor
  phase : Scalar -- in `esp.units.ANGLE_UNIT`
  k : Scalar -- in `esp.units.ENERGY_UNIT`
deriving DecidableEq

/-- The forces of the OpenMM system (`sys.getForces()`), dispatched on the
class name of each force; `otherForce` stands for any force whose name
contains none of the three handled substrings (e.g. `NonbondedForce`). -/
inductive OpenMMForce where
  | harmonicBond (bonds : List BondTerm)
  | harmonicAngle (angles : List AngleTerm)
  | periodicTorsion (torsions : List TorsionTerm)
  | otherForce
deriving DecidableEq

/-- A point of a conformation, in nanometers. -/
abbrev Vec3 := Scalar × Scalar × Scalar

/-- The espaloma molecular graph: per-node-type index tables and data
dictionaries.  `xyz` is `g.nodes["n1"].data["xyz"]`, an
`(n_atoms, n_confs, 3)` tensor kept as its own (atom-major) field. -/
structure Graph where
  n1count : Nat -- `g.heterograph.number_of_nodes("n1")`
  n1_data : DataDict
  xyz : List (List Vec3)
  n2_idxs : List (Nat × Nat) -- `g.nodes["n2"].data["idxs"]`
  n2_data : DataDict
  n3_idxs : List (Nat × Nat × Nat)
  n3_data : DataDict
  n4_idxs : List (Nat × Nat × Nat × Nat)
  n4_data : DataDict
  n4_improper_idxs : List (Nat × Nat × Nat × Nat)
  n4_improper_data : DataDict
  g_data : DataDict -- `g.nodes["g"].data`
deriving DecidableEq

/-- `g.heterograph.number_of_nodes("n2")`: one node per row of the `idxs`
table. -/
def Graph.n2count (g : Graph) : Nat := g.n2_idxs.length

/-- `g.heterograph.number_of_nodes("n3")`. -/
def Graph.n3count (g : Graph) : Nat := g.n3_idxs.length

/-- `g.heterograph.number_of_nodes("n4")`. -/
def Graph.n4count (g : Graph) : Nat := g.n4_idxs.length

/-- `g.heterograph.number_of_nodes("n4_improper")`. -/
def Graph.n4impcount (g : Graph) : Nat := g.n4_improper_idxs.length

/-! ### `_parametrize_gaff`: bond and angle blocks -/

/-- Body of the bond loop of `_parametrize_gaff` (lines 273-290): look up the
positions of `(idx0, idx1)` and `(idx1, idx0)` in the bond table and write
`eq` / `k` (already unit-converted) at both.  A missing key is a python
`KeyError`. -/
def writeBond (n2idxs : List (Nat × Nat)) (st : Tensor2 × Tensor2)
    (b : BondTerm) : Except String (Tensor2 × Tensor2) :=
  match lastIdxOf n2idxs (b.idx0, b.idx1) with
  | none => .error "KeyError"
  | some position =>
    let eqT := setRow st.1 position [b.eq]
    let kT := setRow st.2 position [b.k]
    match lastIdxOf n2idxs (b.idx1, b.idx0) with
    | none => .error "KeyError"
    | some position2 =>
      .ok (setRow eqT position2 [b.eq], setRow kT position2 [b.k])

/-- The bond loop `for idx in range(force.getNumBonds())`. -/
def bondLoop (n2idxs : List (Nat × Nat)) :
    Tensor2 × Tensor2 → List BondTerm → Except String (Tensor2 × Tensor2)
  | st, [] => .ok st
  | st, b :: bs =>
    match writeBond n2idxs st b with
    | .error e => .error e
    | .ok st' => bondLoop n2idxs st' bs

/-- The `HarmonicBondForce` block of `_parametrize_gaff` (lines 259-290):
assert `numBonds * 2 == number_of_nodes("n2")`, allocate zero tensors for
`eq_ref` / `k_ref`, run the bond loop, store the results. -/
def processBondForce (g : Graph) (bonds : List BondTerm) :
    Except String Graph :=
  if bonds.length * 2 = g.n2count then
    match bondLoop g.n2_idxs
        (zerosT (bonds.length * 2) 1, zerosT (bonds.length * 2) 1) bonds with
    | .error e => .error e
    | .ok (eqT, kT) =>
      .ok { g with n2_data := dictSet (dictSet g.n2_data "eq_ref" eqT) "k_ref" kT }
  else .error "AssertionError"

/-- Body of the angle loop of `_parametrize_gaff` (lines 306-323). -/
def writeAngle (n3idxs : List (Nat × Nat × Nat)) (st : Tensor2 × Tensor2)
    (a : AngleTerm) : Except String (Tensor2 × Tensor2) :=
  match lastIdxOf n3idxs (a.idx0, a.idx1, a.idx2) with
  | none => .error "KeyError"
  | some position =>
    let eqT := setRow st.1 position [a.eq]
    let kT := setRow st.2 position [a.k]
    match lastIdxOf n3idxs (a.idx2, a.idx1, a.idx0) with
    | none => .error "KeyError"
    | some position2 =>
      .ok (setRow eqT position2 [a.eq], setRow kT position2 [a.k])

/-- The angle loop `for idx in range(force.getNumAngles())`. -/
def angleLoop (n3idxs : List (Nat × Nat × Nat)) :
    Tensor2 × Tensor2 → List AngleTerm → Except String (Tensor2 × Tensor2)
  | st, [] => .ok st
  | st, a :: as_ =>
    match writeAngle n3idxs st a with
    | .error e => .error e
    | .ok st' => angleLoop n3idxs st' as_

/-- The `HarmonicAngleForce` block of `_parametrize_gaff` (lines 292-323). -/
def processAngleForce (g : Graph) (angles : List AngleTerm) :
    Except String Graph :=
  if angles.length * 2 = g.n3count then
    match angleLoop g.n3_idxs
        (zerosT (angles.length * 2) 1, zerosT (angles.length * 2) 1) angles with
    | .error e => .error e
    | .ok (eqT, kT) =>
      .ok { g with n3_data := dictSet (dictSet g.n3_data "eq_ref" eqT) "k_ref" kT }
  else .error "AssertionError"

/-! ### `_parametrize_gaff`: torsion block -/

/-- Scan `for sub_idx in range(n_max_phases)` for the first column whose
`torsion_ks[position, sub_idx] == 0`; `c` is the next candidate column and
`fuel` the number of columns still to try. -/
def findFirstFree (ks : Tensor2) (pos : Nat) : Nat → Nat → Option Nat
  | _, 0 => none
  | c, fuel + 1 =>
    if getEntry? ks pos c = some 0 then some c
    else findFirstFree ks pos (c + 1) fuel

/-- First column of row `pos` of `ks` holding `0`, among columns
`0 .. nMaxPhases - 1`. -/
def firstFreeCol (ks : Tensor2) (pos nMaxPhases : Nat) : Option Nat :=
  findFirstFree ks pos 0 nMaxPhases

/-- State of the torsion tensors `(torsion_ks, torsion_phases,
torsion_periodicities)`. -/
abbrev TorsionState := Tensor2 × Tensor2 × Tensor2

/-- Body of the torsion loop of `_parametrize_gaff` (lines 326-367): if the
quadruple is in the lookup table, find the first Fourier column whose `k`
entry is still zero, write `0.5 * k`, phase and periodicity there, then do
the same at the position of the reversed quadruple and `break`.  A torsion
absent from the table, or one whose row has no free column, writes
nothing. -/
def applyGaffTorsionTerm (n4idxs : List (Nat × Nat × Nat × Nat))
    (nMaxPhases : Nat) (st : TorsionState) (t : TorsionTerm) :
    Except String TorsionState :=
  match lastIdxOf n4idxs (t.idx0, t.idx1, t.idx2, t.idx3) with
  | none => .ok st
  | some position =>
    match firstFreeCol st.1 position nMaxPhases with
    | none => .ok st
    | some subIdx =>
      let ks := setEntry st.1 position subIdx (0.5 * t.k)
      let phases := setEntry st.2.1 position subIdx t.phase
      let periodicities := setEntry st.2.2 position subIdx t.periodicity
      match lastIdxOf n4idxs (t.idx3, t.idx2, t.idx1, t.idx0) with
      | none => .error "KeyError"
      | some position2 =>
        .ok (setEntry ks position2 subIdx (0.5 * t.k),
             setEntry phases position2 subIdx t.phase,
             setEntry periodicities position2 subIdx t.periodicity)

/-- The torsion loop `for idx in range(force.getNumTorsions())`. -/
def gaffTorsionLoop (n4idxs : List (Nat × Nat × Nat × Nat))
    (nMaxPhases : Nat) :
    TorsionState → List TorsionTerm → Except String TorsionState
  | st, [] => .ok st
  | st, t :: ts =>
    match applyGaffTorsionTerm n4idxs nMaxPhases st t with
    | .error e => .error e
    | .ok st' => gaffTorsionLoop n4idxs nMaxPhases st' ts

/-! ### `_parametrize_gaff`: the force loop -/

/-- Dispatch on the class name of one force of `sys.getForces()`
(the three `if "..." in name` blocks). -/
def processForce (nMaxPhases : Nat) (st : Graph × TorsionState)
    (f : OpenMMForce) : Except String (Graph × TorsionState) :=
  match f with
  | .harmonicBond bonds =>
    match processBondForce st.1 bonds with
    | .error e => .error e
    | .ok g' => .ok (g', st.2)
  | .harmonicAngle angles =>
    match processAngleForce st.1 angles with
    | .error e => .error e
    | .ok g' => .ok (g', st.2)
  | .periodicTorsion torsions =>
    match gaffTorsionLoop st.1.n4_idxs nMaxPhases st.2 torsions with
    | .error e => .error e
    | .ok t' => .ok (st.1, t')
  | .otherForce => .ok st

/-- The unconditional `g.heterograph.apply_nodes(..., ntype="n4")` at the
end of each iteration of the force loop (lines 369-376): store the current
torsion tensors on the `n4` nodes. -/
def applyN4 (g : Graph) (t : TorsionState) : Graph :=
  { g with
    n4_data :=
      dictSet (dictSet (dictSet g.n4_data "k_ref" t.1)
        "periodicity_ref" t.2.2) "phases_ref" t.2.1 }

/-- `for force in sys.getForces(): ...` of `_parametrize_gaff`. -/
def gaffForceLoop (nMaxPhases : Nat) :
    Graph × TorsionState → List OpenMMForce → Except String Graph
  | (g, _), [] => .ok g
  | (g, t), f :: fs =>
    match processForce nMaxPhases (g, t) f with
    | .error e => .error e
    | .ok (g', t') => gaffForceLoop nMaxPhases (applyN4 g' t', t') fs

/-- `_parametrize_gaff(self, g, n_max_phases=6)`: the external
`SystemGenerator` is abstracted into the list `forces` of the OpenMM forces
of the generated system.  The `improper_*` tensors are allocated exactly as
in the source (sized by the `n4` node count) but never applied: the
corresponding `apply_nodes(..., ntype="n4_improper")` call is commented
out in the source (lines 378-388). -/
def parametrizeGaff (g : Graph) (forces : List OpenMMForce)
    (nMaxPhases : Nat) : Except String Graph :=
  let n := g.n4count
  let torsion_phases := zerosT n nMaxPhases
  let torsion_periodicities := zerosT n nMaxPhases
  let torsion_ks := zerosT n nMaxPhases
  let _improper_phases := zerosT n nMaxPhases
  let _improper_periodicities := zerosT n nMaxPhases
  let _improper_ks := zerosT n nMaxPhases
  gaffForceLoop nMaxPhases
    (g, (torsion_ks, torsion_phases, torsion_periodicities)) forces

/-! ### `_parametrize_smirnoff` -/

/-- A `forces["Bonds"]` label of `FF.label_molecules`. -/
structure BondLabel where
  k : Scalar -- in `esp.units.FORCE_CONSTANT_UNIT`
  length : Scalar -- in `esp.units.DISTANCE_UNIT`
deriving DecidableEq

/-- A `forces["Angles"]` label. -/
structure AngleLabel where
  k : Scalar -- in `esp.units.ANGLE_FORCE_CONSTANT_UNIT`
  angle : Scalar -- in `esp.units.ANGLE_UNIT`
deriving DecidableEq

/-- A `forces["vdW"]` label. -/
structure VdWLabel where
  epsilon : Scalar -- in `esp.units.ENERGY_UNIT`
  rmin_half : Scalar -- in `esp.units.DISTANCE_UNIT`
deriving DecidableEq

/-- One Fourier term `(k{i}, phase{i}, periodicity{i})` of a torsion label;
a term whose `k{i}` attribute is absent (`hasattr` false) is `none` in the
list below. -/
structure FourierTerm where
  k : Scalar -- in `esp.units.ENERGY_UNIT`
  phase : Scalar -- in `esp.units.ANGLE_UNIT`
  periodicity : Scalar
deriving DecidableEq

/-- The labelling `forces = self.FF.label_molecules(...)` of the external
OpenFF toolkit: finite partial maps from index tuples to labels.  For a
torsion label, the list has one entry per `sub_idx in
range(len(_force.periodicity))`. -/
structure SmirnoffLabels where
  bonds : Nat × Nat → Option BondLabel
  angles : Nat × Nat × Nat → Option AngleLabel
  vdW : Nat → Option VdWLabel
  propers : Nat × Nat × Nat × Nat → Option (List (Option FourierTerm))
  impropers : Nat × Nat × Nat × Nat → Option (List (Option FourierTerm))

/-- `[:, None]`: a list of scalars as an `(n, 1)` tensor. -/
def column (vals : List Scalar) : Tensor2 :=
  vals.map (fun v => [v])

/-- Look up every key; a miss is a python `KeyError` aborting the
comprehension. -/
def lookupAll {α β : Type} (f : α → Option β) :
    List α → Except String (List β)
  | [] => .ok []
  | a :: rest =>
    match f a with
    | none => .error "KeyError"
    | some b =>
      match lookupAll f rest with
      | .error e => .error e
      | .ok bs => .ok (b :: bs)

/-- One iteration `sub_idx` of the inner loop of `apply_torsion` /
`apply_improper_torsion` (lines 543-555 / 585-598): if the `k{sub_idx}`
attribute is recorded, write the Fourier term of row `idx` into column
`sub_idx` of the three tensors. -/
def writeFourierTerm (fterms : List (Option FourierTerm)) (idx : Nat)
    (st : TorsionState) (subIdx : Nat) : TorsionState :=
  match fterms[subIdx]? with
  | some (some ft) =>
    (setEntry st.1 idx subIdx ft.k,
     setEntry st.2.1 idx subIdx ft.phase,
     setEntry st.2.2 idx subIdx ft.periodicity)
  | _ => st

/-- Inner loop `for sub_idx in range(len(_force.periodicity))`. -/
def applyTorsionRow (fterms : List (Option FourierTerm))
    (st : TorsionState) (idx : Nat) : TorsionState :=
  (List.range fterms.length).foldl (writeFourierTerm fterms idx) st

/-- One iteration `idx` of the outer loop of `apply_torsion` /
`apply_improper_torsion`: skip nodes whose index quadruple is not in the
label table. -/
def torsionRowStep (idxs : List (Nat × Nat × Nat × Nat))
    (force : Nat × Nat × Nat × Nat → Option (List (Option FourierTerm)))
    (st : TorsionState) (idx : Nat) : TorsionState :=
  match idxs[idx]? with
  | none => st
  | some q =>
    match force q with
    | none => st
    | some fterms => applyTorsionRow fterms st idx

/-- `apply_torsion` (lines 521-561) and `apply_improper_torsion`
(lines 563-604), which differ only in the node type and label table:
start from zero `(count, n_max_phases)` tensors and, for every node whose
index quadruple is in the label table, write its recorded Fourier terms. -/
def torsionTensorsFromLabels (idxs : List (Nat × Nat × Nat × Nat))
    (force : Nat × Nat × Nat × Nat → Option (List (Option FourierTerm)))
    (nMaxPhases : Nat) : TorsionState :=
  (List.range idxs.length).foldl (torsionRowStep idxs force)
    (zerosT idxs.length nMaxPhases,
     zerosT idxs.length nMaxPhases,
     zerosT idxs.length nMaxPhases)

/-- `_parametrize_smirnoff(self, g)` (lines 431-609), with
`n_max_phases = 6` of the two inner functions passed explicitly: assign
`k_ref` / `eq_ref` on `n2` and `n3` (doubling the labelled force constants:
"OpenFF records 1/2k as param"), `epsilon_ref` / `sigma_ref` on `n1`
(from `epsilon` and `rmin_half`), and the padded torsion tensors on `n4`
and `n4_improper`. -/
def parametrizeSmirnoff (labels : SmirnoffLabels) (nMaxPhases : Nat)
    (g : Graph) : Except String Graph :=
  match lookupAll labels.bonds g.n2_idxs with
  | .error e => .error e
  | .ok bondLabels =>
    match lookupAll labels.angles g.n3_idxs with
    | .error e => .error e
    | .ok angleLabels =>
      match lookupAll labels.vdW (List.range g.n1count) with
      | .error e => .error e
      | .ok vdWLabels =>
        let n2d := dictSet g.n2_data "k_ref"
          (column (bondLabels.map (fun l => 2 * l.k)))
        let n2d := dictSet n2d "eq_ref"
          (column (bondLabels.map (fun l => l.length)))
        let n3d := dictSet g.n3_data "k_ref"
          (column (angleLabels.map (fun l => 2 * l.k)))
        let n3d := dictSet n3d "eq_ref"
          (column (angleLabels.map (fun l => l.angle)))
        let n1d := dictSet g.n1_data "epsilon_ref"
          (column (vdWLabels.map (fun l => l.epsilon)))
        let n1d := dictSet n1d "sigma_ref"
          (column (vdWLabels.map (fun l => l.rmin_half)))
        let tors := torsionTensorsFromLabels g.n4_idxs labels.propers
          nMaxPhases
        let imps := torsionTensorsFromLabels g.n4_improper_idxs
          labels.impropers nMaxPhases
        let n4d := dictSet (dictSet (dictSet g.n4_data "k_ref" tors.1)
          "periodicity_ref" tors.2.2) "phases_ref" tors.2.1
        let n4id := dictSet (dictSet
          (dictSet g.n4_improper_data "k_ref" imps.1)
          "periodicity_ref" imps.2.2) "phases_ref" imps.2.1
        .ok { g with
                n1_data := n1d
                n2_data := n2d
                n3_data := n3d
                n4_data := n4d
                n4_improper_data := n4id }

/-! ### dispatch, `baseline_energy`, `_convert_to_off`, `_prepare_gaff` -/

/-- `needle` occurs contiguously in the list. -/
def listContains {α : Type} [DecidableEq α] (needle : List α) :
    List α → Bool
  | [] => needle.isEmpty
  | x :: xs => needle.isPrefixOf (x :: xs) || listContains needle xs

/-- `sub in s` on python strings: substring containment. -/
def strContains (s sub : String) : Bool :=
  listContains sub.data s.data

/-- The branch taken by `parametrize` (lines 716-725). -/
inductive ParametrizePath where
  | smirnoffPath
  | gaffPath
  | notImplemented
deriving DecidableEq

/-- Branch structure of `parametrize`. -/
def parametrizeDispatch (forcefield : String) : ParametrizePath :=
  if strContains forcefield "smirnoff" || strContains forcefield "openff" then
    .smirnoffPath
  else if strContains forcefield "gaff" then
    .gaffPath
  else
    .notImplemented

/-- `parametrize(self, g)`: dispatch on the forcefield name; the external
inputs of the two branches (`label_molecules` labels, OpenMM forces) appear
as arguments. -/
def parametrize (forcefield : String) (labels : SmirnoffLabels)
    (forces : List OpenMMForce) (nMaxPhases : Nat) (g : Graph) :
    Except String Graph :=
  match parametrizeDispatch forcefield with
  | .smirnoffPath => parametrizeSmirnoff labels nMaxPhases g
  | .gaffPath => parametrizeGaff g forces nMaxPhases
  | .notImplemented => .error "NotImplementedError"

/-- Branch structure of `_prepare_forcefield` (lines 73-86), run by
`__init__`: `gaff`, then `smirnoff`, then `openff`, else
`NotImplementedError`. -/
def prepareForcefieldDispatch (forcefield : String) : Except String Unit :=
  if strContains forcefield "gaff" then .ok ()
  else if strContains forcefield "smirnoff" then .ok ()
  else if strContains forcefield "openff" then .ok ()
  else .error "NotImplementedError"

/-- Branch structure of `typing` (lines 727-733). -/
def typingDispatch (forcefield : String) : Except String Unit :=
  if strContains forcefield "gaff" then .ok ()
  else .error "NotImplementedError"

/-- `number of conformations`: the second dimension of the
`(n_atoms, n_confs, 3)` tensor `xyz`. -/
def Graph.nConfs (g : Graph) : Nat :=
  match g.xyz with
  | [] => 0
  | row :: _ => row.length

/-- The transpose `.transpose((1, 0, 2))` of the rectangular atom-major
`xyz` tensor: the list of conformations, each a list of atom positions. -/
def Graph.confs (g : Graph) : List (List Vec3) :=
  (List.range g.nConfs).map
    (fun j => g.xyz.map (fun row => row.getD j (0, 0, 0)))

/-- `baseline_energy(self, g, suffix=None)` (lines 611-663): the OpenMM
simulation is abstracted into `energyFn`, mapping one conformation
(positions in nanometers) to its potential energy already converted to
`esp.units.ENERGY_UNIT`.  One energy per conformation is collected in
order and stored on the graph-level node under `"u" + suffix`, with the
suffix defaulting to `"_" + self.forcefield`, as a `(1, n_confs)`
tensor. -/
def baseline_energy (forcefield : String) (energyFn : List Vec3 → Scalar)
    (g : Graph) (suffix : Option String) : Graph :=
  let sfx :=
    match suffix with
    | none => "_" ++ forcefield
    | some s => s
  let us := g.confs.map energyFn
  { g with g_data := dictSet g.g_data ("u" ++ sfx) [us] }

/-- The possible inputs of `_convert_to_off` (lines 57-71); the four
recognised types are abstract type parameters, everything else is
`otherInput`. -/
inductive MolInput (G O R E : Type) where
  | espGraph (g : G)
  | offMolecule (m : O)
  | rdkitMol (m : R)
  | openeyeMol (m : E)
  | otherInput

/-- `_convert_to_off(mol)`: the three converters (`.mol`,
`Molecule.from_rdkit`, `Molecule.from_openeye`) are external and appear as
arguments.  The `if/elif` chain has no `else`, so an unrecognised input
falls through and python returns `None`. -/
def convertToOff {G O R E : Type} (graphMol : G → O) (fromRdkit : R → O)
    (fromOpeneye : E → O) : MolInput G O R E → Option O
  | .espGraph g => some (graphMol g)
  | .offMolecule m => some m
  | .rdkitMol m => some (fromRdkit m)
  | .openeyeMol m => some (fromOpeneye m)
  | .otherInput => none

/-! ### `_prepare_gaff` -/

/-- `REDUNDANT_TYPES` (lines 17-24). -/
def REDUNDANT_TYPES : List (String × String) :=
  [("cd", "cc"), ("cf", "ce"), ("cq", "cp"),
   ("pd", "pc"), ("pf", "pe"), ("nd", "nc")]

/-- python `list.remove(a)`: drop the first occurrence of `a`, a
`ValueError` (here `none`) when `a` is absent. -/
def removeFirst {α : Type} [DecidableEq α] (a : α) :
    List α → Option (List α)
  | [] => none
  | x :: xs =>
    if x = a then some xs
    else (removeFirst a xs).map (fun l => x :: l)

/-- One step of removing the redundant types: `atom_types.remove(bad_type)`
applied to the accumulator. -/
def removeStep (acc : Option (List String)) (p : String × String) :
    Option (List String) :=
  acc.bind (removeFirst p.1)

/-- `[atom_types.remove(bad_type) for bad_type in REDUNDANT_TYPES.keys()]`. -/
def removeRedundant (atom_types : List String) : Option (List String) :=
  REDUNDANT_TYPES.foldl removeStep (some atom_types)

/-- `zip(range(n), l)` starting at `n`: the pairs of `idx_2_str`. -/
def idxPairsFrom {α : Type} (n : Nat) : List α → List (Nat × α)
  | [] => []
  | x :: xs => (n, x) :: idxPairsFrom (n + 1) xs

/-- `zip(l, range(n))` starting at `n`: the pairs of `str_2_idx`. -/
def pairIdxFrom {α : Type} (n : Nat) : List α → List (α × Nat)
  | [] => []
  | x :: xs => (x, n) :: pairIdxFrom (n + 1) xs

/-- One step of `str_2_idx[bad_type] = str_2_idx[good_type]` on a dict
kept as a pair list: look up the replacement type (a `KeyError`, here
`none`, if absent) and append the overriding pair. -/
def insertRedundant (acc : Option (List (String × Nat)))
    (p : String × String) : Option (List (String × Nat)) :=
  acc.bind (fun l => (pyDictGet l p.2).map (fun v => l ++ [(p.1, v)]))

/-- The two translation dictionaries produced by `_prepare_gaff`
(lines 100-136), as pair lists in insertion order (lookup via
`pyDictGet`). -/
structure GaffDicts where
  str_2_idx : List (String × Nat)
  idx_2_str : List (Nat × String)
deriving DecidableEq

/-- `_prepare_gaff`, starting from the atom-type list read from the
forcefield XML: remove the six redundant types (a `ValueError`, here
`none`, if one is absent), build `str_2_idx` / `idx_2_str` from the
remaining list, then map each redundant type to the index of its
replacement (a `KeyError`, here `none`, if the replacement is absent). -/
def prepareGaff (atom_types : List String) : Option GaffDicts :=
  match removeRedundant atom_types with
  | none => none
  | some ts =>
    let str_2_idx := pairIdxFrom 0 ts
    let idx_2_str := idxPairsFrom 0 ts
    match REDUNDANT_TYPES.foldl insertRedundant (some str_2_idx) with
    | none => none
    | some s2i => some { str_2_idx := s2i, idx_2_str := idx_2_str }

/-! ### Helper lemmas: tensors and lookup tables -/

theorem zerosT_length (n m : Nat) : (zerosT n m).length = n := by
  simp [zerosT]

theorem zerosT_getElem? (n m i : Nat) :
    (zerosT n m)[i]? = if i < n then some (List.replicate m 0) else none := by
  simp [zerosT, List.getElem?_replicate]

theorem getEntry?_zerosT (n m i j : Nat) :
    getEntry? (zerosT n m) i j =
      if i < n ∧ j < m then some 0 else none := by
  simp only [getEntry?, zerosT_getElem?]
  by_cases hi : i < n
  · simp [hi, List.getElem?_replicate]
  · simp [hi]

theorem setEntry_length (t : Tensor2) (i j : Nat) (v : Scalar) :
    (setEntry t i j v).length = t.length := by
  unfold setEntry
  cases h : t[i]? with
  | none => rfl
  | some row => simp

theorem getEntry?_isSome_bounds {t : Tensor2} {i j : Nat} {w : Scalar}
    (h : getEntry? t i j = some w) :
    ∃ row, t[i]? = some row ∧ row[j]? = some w := by
  unfold getEntry? at h
  cases hrow : t[i]? with
  | none => rw [hrow] at h; simp at h
  | some row => rw [hrow] at h; exact ⟨row, rfl, h⟩

theorem getEntry?_setEntry_self {t : Tensor2} {i j : Nat} {w : Scalar}
    (v : Scalar) (h : getEntry? t i j = some w) :
    getEntry? (setEntry t i j v) i j = some v := by
  obtain ⟨row, hrow, hj⟩ := getEntry?_isSome_bounds h
  have hi : i < t.length := by
    rcases List.getElem?_eq_some.mp hrow with ⟨hlt, _⟩
    exact hlt
  have hjlt : j < row.length := by
    rcases List.getElem?_eq_some.mp hj with ⟨hlt, _⟩
    exact hlt
  unfold setEntry
  rw [hrow]
  unfold getEntry?
  rw [List.getElem?_set_self (by simpa using hi)]
  simp [List.getElem?_set_self (by simpa using hjlt)]

theorem getEntry?_setEntry_ne {t : Tensor2} {i j i' j' : Nat} {v : Scalar}
    (h : i' ≠ i ∨ j' ≠ j) :
    getEntry? (setEntry t i j v) i' j' = getEntry? t i' j' := by
  unfold setEntry
  cases hrow : t[i]? with
  | none => rfl
  | some row =>
    have hi : i < t.length := by
      rcases List.getElem?_eq_some.mp hrow with ⟨hlt, _⟩
      exact hlt
    unfold getEntry?
    rcases h with hne | hne
    · rw [List.getElem?_set_ne (fun he => hne he.symm)]
    · by_cases hii : i' = i
      · subst hii
        rw [List.getElem?_set_self (by simpa using hi), hrow]
        simp only [Option.some_bind]
        rw [List.getElem?_set_ne (fun he => hne he.symm)]
      · rw [List.getElem?_set_ne (fun he => hii he.symm)]

theorem rows_length_setEntry {t : Tensor2} {m : Nat}
    (ht : ∀ row ∈ t, row.length = m) (i j : Nat) (v : Scalar) :
    ∀ row ∈ setEntry t i j v, row.length = m := by
  unfold setEntry
  cases hrow : t[i]? with
  | none => exact ht
  | some row =>
    intro r hr
    rcases List.mem_or_eq_of_mem_set hr with hmem | hEq
    · exact ht r hmem
    · subst hEq
      simp [ht row (List.getElem?_mem hrow)]

theorem lastIdxOf_lt_length {α : Type} [DecidableEq α] {l : List α} {a : α}
    {i : Nat} (h : lastIdxOf l a = some i) : i < l.length := by
  induction l generalizing i with
  | nil => simp [lastIdxOf] at h
  | cons x xs ih =>
    unfold lastIdxOf at h
    cases hxs : lastIdxOf xs a with
    | some j =>
      rw [hxs] at h
      cases h
      exact Nat.succ_lt_succ (ih hxs)
    | none =>
      rw [hxs] at h
      by_cases hx : x = a
      · rw [if_pos hx] at h
        cases h
        simp
      · rw [if_neg hx] at h
        cases h

theorem lastIdxOf_getElem? {α : Type} [DecidableEq α] {l : List α} {a : α}
    {i : Nat} (h : lastIdxOf l a = some i) : l[i]? = some a := by
  induction l generalizing i with
  | nil => simp [lastIdxOf] at h
  | cons x xs ih =>
    unfold lastIdxOf at h
    cases hxs : lastIdxOf xs a with
    | some j =>
      rw [hxs] at h
      cases h
      simpa using ih hxs
    | none =>
      rw [hxs] at h
      by_cases hx : x = a
      · simp [hx] at h
        subst h
        simp [hx]
      · simp [hx] at h

theorem findFirstFree_spec {ks : Tensor2} {pos : Nat} :
    ∀ {fuel c r : Nat}, findFirstFree ks pos c fuel = some r →
      c ≤ r ∧ r < c + fuel ∧ getEntry? ks pos r = some 0 ∧
        ∀ j, c ≤ j → j < r → getEntry? ks pos j ≠ some 0 := by
  intro fuel
  induction fuel with
  | zero => intro c r h; simp [findFirstFree] at h
  | succ n ih =>
    intro c r h
    unfold findFirstFree at h
    by_cases hc : getEntry? ks pos c = some 0
    · rw [if_pos hc] at h
      cases h
      exact ⟨Nat.le_refl _, by omega, hc, fun j hj1 hj2 => by omega⟩
    · rw [if_neg hc] at h
      obtain ⟨h1, h2, h3, h4⟩ := ih h
      refine ⟨by omega, by omega, h3, ?_⟩
      intro j hj1 hj2
      by_cases hjc : j = c
      · subst hjc; exact hc
      · exact h4 j (by omega) hj2

theorem firstFreeCol_spec {ks : Tensor2} {pos nMaxPhases r : Nat}
    (h : firstFreeCol ks pos nMaxPhases = some r) :
    r < nMaxPhases ∧ getEntry? ks pos r = some 0 ∧
      ∀ j, j < r → getEntry? ks pos j ≠ some 0 := by
  obtain ⟨h1, h2, h3, h4⟩ := findFirstFree_spec h
  exact ⟨by omega, h3, fun j hj => h4 j (Nat.zero_le _) hj⟩

theorem dictGet_dictSet_self (d : DataDict) (key : String) (v : Tensor2) :
    dictGet (dictSet d key v) key = some v := by
  simp [dictGet, dictSet]

theorem dictGet_dictSet_ne (d : DataDict) {key key' : String}
    (h : key' ≠ key) (v : Tensor2) :
    dictGet (dictSet d key v) key' = dictGet d key' := by
  have hne : ¬ key = key' := fun he => h he.symm
  simp [dictGet, dictSet, hne]

/-! ### Claim theorems: C10, C6, C8 -/

/-- C10: `_convert_to_off` returns the converted molecule for espaloma
Graph, OpenFF Molecule, RDKit Mol, and OpenEye inputs, but for an input of
any other type it raises no error and returns `None` (the `if/elif` chain
has no `else`, and the embedding is the total function `convertToOff` into
`Option`, with `none` playing python's `None`). -/
theorem convertToOff_total_and_none_on_other :
    ∀ (G O R E : Type) (graphMol : G → O) (fromRdkit : R → O)
      (fromOpeneye : E → O),
      (∀ g, convertToOff graphMol fromRdkit fromOpeneye
          (MolInput.espGraph g) = some (graphMol g)) ∧
      (∀ m, convertToOff graphMol fromRdkit fromOpeneye
          (MolInput.offMolecule m) = some m) ∧
      (∀ m, convertToOff graphMol fromRdkit fromOpeneye
          (MolInput.rdkitMol m) = some (fromRdkit m)) ∧
      (∀ m, convertToOff graphMol fromRdkit fromOpeneye
          (MolInput.openeyeMol m) = some (fromOpeneye m)) ∧
      convertToOff graphMol fromRdkit fromOpeneye MolInput.otherInput =
        none := by
  intro G O R E graphMol fromRdkit fromOpeneye
  exact ⟨fun _ => rfl, fun _ => rfl, fun _ => rfl, fun _ => rfl, rfl⟩

/-- C6: `parametrize` takes the SMIRNOFF path exactly when the forcefield
name contains `"smirnoff"` or `"openff"`, the GAFF path exactly when it
contains `"gaff"` and neither of the other two, and otherwise raises
`NotImplementedError`; `_prepare_forcefield` (run by the constructor)
raises `NotImplementedError` exactly when the name contains none of
`"gaff"`, `"smirnoff"`, `"openff"`; `typing` raises `NotImplementedError`
exactly when the name does not contain `"gaff"`. -/
theorem forcefield_dispatch_spec (ff : String) :
    (parametrizeDispatch ff = ParametrizePath.smirnoffPath ↔
      (strContains ff "smirnoff" = true ∨ strContains ff "openff" = true)) ∧
    (parametrizeDispatch ff = ParametrizePath.gaffPath ↔
      (strContains ff "gaff" = true ∧ strContains ff "smirnoff" = false ∧
        strContains ff "openff" = false)) ∧
    (parametrizeDispatch ff = ParametrizePath.notImplemented ↔
      (strContains ff "gaff" = false ∧ strContains ff "smirnoff" = false ∧
        strContains ff "openff" = false)) ∧
    (prepareForcefieldDispatch ff = Except.error "NotImplementedError" ↔
      (strContains ff "gaff" = false ∧ strContains ff "smirnoff" = false ∧
        strContains ff "openff" = false)) ∧
    (typingDispatch ff = Except.error "NotImplementedError" ↔
      strContains ff "gaff" = false) ∧
    (parametrizeDispatch ff = ParametrizePath.notImplemented →
      ∀ labels forces nMaxPhases g,
        parametrize ff labels forces nMaxPhases g =
          Except.error "NotImplementedError") := by
  have hpar : parametrizeDispatch ff = ParametrizePath.notImplemented →
      ∀ labels forces nMaxPhases g,
        parametrize ff labels forces nMaxPhases g =
          Except.error "NotImplementedError" := by
    intro hd labels forces nMaxPhases g
    unfold parametrize
    rw [hd]
  refine ⟨?_, ?_, ?_, ?_, ?_, hpar⟩ <;>
    by_cases h1 : strContains ff "smirnoff" <;>
    by_cases h2 : strContains ff "openff" <;>
    by_cases h3 : strContains ff "gaff" <;>
    simp [parametrizeDispatch, prepareForcefieldDispatch, typingDispatch,
      h1, h2, h3]

/-- C6 witness: concrete instances of the dispatch equivalences and of the
`NotImplementedError` raise of `parametrize`. -/
theorem forcefield_dispatch_spec_witness :
    parametrizeDispatch "amber99" = ParametrizePath.notImplemented ∧
    parametrize "amber99"
        { bonds := fun _ => none, angles := fun _ => none,
          vdW := fun _ => none, propers := fun _ => none,
          impropers := fun _ => none } [] 6
        { n1count := 0, n1_data := [], xyz := [], n2_idxs := [],
          n2_data := [], n3_idxs := [], n3_data := [], n4_idxs := [],
          n4_data := [], n4_improper_idxs := [], n4_improper_data := [],
          g_data := [] } = Except.error "NotImplementedError" := by
  have h := forcefield_dispatch_spec "amber99"
  have hni : parametrizeDispatch "amber99" = ParametrizePath.notImplemented :=
    (h.2.2.1).mpr (by decide)
  exact ⟨hni, h.2.2.2.2.2 hni _ _ _ _⟩

/-- C8: `baseline_energy` computes one energy per conformation (via the
abstracted simulation engine `energyFn`, producing values already in
espaloma energy units), stores them on the graph-level node under the key
`"u" + suffix` — the suffix defaulting to `"_" + forcefield` — as a tensor
of shape `(1, nConfs)` in conformation order, and returns the same graph
with only that entry added. -/
theorem baseline_energy_spec (ff : String) (energyFn : List Vec3 → Scalar)
    (g : Graph) (suffix : Option String) :
    baseline_energy ff energyFn g suffix =
      { g with g_data := (dictSet g.g_data ("u" ++ suffix.getD ("_" ++ ff))
          [g.confs.map energyFn]) } ∧
    dictGet (baseline_energy ff energyFn g suffix).g_data
        ("u" ++ suffix.getD ("_" ++ ff)) = some [g.confs.map energyFn] ∧
    ([g.confs.map energyFn] : Tensor2).length = 1 ∧
    (g.confs.map energyFn).length = g.nConfs := by
  refine ⟨?_, ?_, rfl, ?_⟩
  · cases suffix <;> rfl
  · cases suffix <;>
      simpa [baseline_energy] using
        dictGet_dictSet_self g.g_data _ [g.confs.map energyFn]
  · simp [Graph.confs]

/-! ### Helper lemmas: double row / entry writes -/

theorem setRow_twice_getElem? {t : Tensor2} {p q : Nat} (row : List Scalar)
    (hp : p < t.length) (hq : q < t.length) :
    (setRow (setRow t p row) q row)[p]? = some row ∧
    (setRow (setRow t p row) q row)[q]? = some row := by
  unfold setRow
  constructor
  · by_cases hpq : p = q
    · subst hpq
      exact List.getElem?_set_self (by simpa using hp)
    · rw [List.getElem?_set_ne (fun he => hpq he.symm)]
      exact List.getElem?_set_self hp
  · exact List.getElem?_set_self (by simpa using hq)

theorem getEntry?_isSome_of_wf {t : Tensor2} {m i j : Nat}
    (hrows : ∀ row ∈ t, row.length = m) (hi : i < t.length) (hj : j < m) :
    ∃ w, getEntry? t i j = some w := by
  have hrow : t[i]? = some t[i] := List.getElem?_eq_getElem hi
  have hlen : (t[i]).length = m := hrows _ (List.getElem?_mem hrow)
  have hjlt : j < (t[i]).length := by omega
  refine ⟨(t[i])[j], ?_⟩
  unfold getEntry?
  rw [hrow]
  simp only [Option.some_bind]
  exact List.getElem?_eq_getElem hjlt

theorem getEntry?_setEntry_twice {t : Tensor2} {p q c : Nat} {v : Scalar}
    {w1 w2 : Scalar} (hp : getEntry? t p c = some w1)
    (hq : getEntry? t q c = some w2) :
    getEntry? (setEntry (setEntry t p c v) q c v) p c = some v ∧
    getEntry? (setEntry (setEntry t p c v) q c v) q c = some v := by
  by_cases hpq : p = q
  · subst hpq
    have h1 := getEntry?_setEntry_self v hp
    exact ⟨getEntry?_setEntry_self v h1, getEntry?_setEntry_self v h1⟩
  · have h1 := getEntry?_setEntry_self v hp
    have h2 : getEntry? (setEntry t p c v) q c = some w2 := by
      rw [getEntry?_setEntry_ne (Or.inl (fun he => hpq he.symm))]
      exact hq
    refine ⟨?_, getEntry?_setEntry_self v h2⟩
    rw [getEntry?_setEntry_ne (Or.inl hpq)]
    exact h1

theorem getEntry?_setEntry_twice_frame {t : Tensor2} {p q c : Nat}
    {v : Scalar} {i j : Nat} (h : (i ≠ p ∧ i ≠ q) ∨ j ≠ c) :
    getEntry? (setEntry (setEntry t p c v) q c v) i j =
      getEntry? t i j := by
  rcases h with ⟨h1, h2⟩ | h3
  · rw [getEntry?_setEntry_ne (Or.inl h2), getEntry?_setEntry_ne (Or.inl h1)]
  · rw [getEntry?_setEntry_ne (Or.inr h3), getEntry?_setEntry_ne (Or.inr h3)]

theorem setEntry_row_ne {t : Tensor2} {i j : Nat} {v : Scalar} {r : Nat}
    (h : r ≠ i) : (setEntry t i j v)[r]? = t[r]? := by
  unfold setEntry
  cases hrow : t[i]? with
  | none => rfl
  | some row => exact List.getElem?_set_ne (fun he => h he.symm)

/-! ### Claim theorem: C1 -/

/-- C1: in GAFF parametrization, for every bond `(i, j)` reported by the
OpenMM `HarmonicBondForce`, the graph positions looked up for `(i, j)` and
for `(j, i)` in the `n2` index table receive identical `eq_ref` and `k_ref`
values (already converted to espaloma units), and for every angle
`(i, j, k)` of the `HarmonicAngleForce` the positions for `(i, j, k)` and
`(k, j, i)` in the `n3` table receive identical `eq_ref` and `k_ref`
values. -/
theorem bond_angle_symmetric_duplication :
    (∀ (n2idxs : List (Nat × Nat)) (eqT kT : Tensor2) (b : BondTerm)
        (p q : Nat),
      lastIdxOf n2idxs (b.idx0, b.idx1) = some p →
      lastIdxOf n2idxs (b.idx1, b.idx0) = some q →
      eqT.length = n2idxs.length → kT.length = n2idxs.length →
      ∃ eqT' kT',
        writeBond n2idxs (eqT, kT) b = Except.ok (eqT', kT') ∧
        eqT'[p]? = some [b.eq] ∧ eqT'[q]? = some [b.eq] ∧
        kT'[p]? = some [b.k] ∧ kT'[q]? = some [b.k]) ∧
    (∀ (n3idxs : List (Nat × Nat × Nat)) (eqT kT : Tensor2) (a : AngleTerm)
        (p q : Nat),
      lastIdxOf n3idxs (a.idx0, a.idx1, a.idx2) = some p →
      lastIdxOf n3idxs (a.idx2, a.idx1, a.idx0) = some q →
      eqT.length = n3idxs.length → kT.length = n3idxs.length →
      ∃ eqT' kT',
        writeAngle n3idxs (eqT, kT) a = Except.ok (eqT', kT') ∧
        eqT'[p]? = some [a.eq] ∧ eqT'[q]? = some [a.eq] ∧
        kT'[p]? = some [a.k] ∧ kT'[q]? = some [a.k]) := by
  constructor
  · intro n2idxs eqT kT b p q hfwd hrev heq hk
    have hp : p < n2idxs.length := lastIdxOf_lt_length hfwd
    have hq : q < n2idxs.length := lastIdxOf_lt_length hrev
    refine ⟨setRow (setRow eqT p [b.eq]) q [b.eq],
      setRow (setRow kT p [b.k]) q [b.k], ?_, ?_⟩
    · unfold writeBond
      rw [hfwd, hrev]
    · obtain ⟨he1, he2⟩ := setRow_twice_getElem? (t := eqT) (p := p)
        (q := q) [b.eq] (by omega) (by omega)
      obtain ⟨hk1, hk2⟩ := setRow_twice_getElem? (t := kT) (p := p)
        (q := q) [b.k] (by omega) (by omega)
      exact ⟨he1, he2, hk1, hk2⟩
  · intro n3idxs eqT kT a p q hfwd hrev heq hk
    have hp : p < n3idxs.length := lastIdxOf_lt_length hfwd
    have hq : q < n3idxs.length := lastIdxOf_lt_length hrev
    refine ⟨setRow (setRow eqT p [a.eq]) q [a.eq],
      setRow (setRow kT p [a.k]) q [a.k], ?_, ?_⟩
    · unfold writeAngle
      rw [hfwd, hrev]
    · obtain ⟨he1, he2⟩ := setRow_twice_getElem? (t := eqT) (p := p)
        (q := q) [a.eq] (by omega) (by omega)
      obtain ⟨hk1, hk2⟩ := setRow_twice_getElem? (t := kT) (p := p)
        (q := q) [a.k] (by omega) (by omega)
      exact ⟨he1, he2, hk1, hk2⟩

/-- C1 witness: a concrete bond and a concrete angle duplicated into both
index orders. -/
theorem bond_angle_symmetric_duplication_witness :
    (∃ eqT' kT',
      writeBond [(0, 1), (1, 0)] (zerosT 2 1, zerosT 2 1)
          ⟨0, 1, 3 / 2, 5⟩ = Except.ok (eqT', kT') ∧
      eqT'[0]? = some [3 / 2] ∧ eqT'[1]? = some [3 / 2] ∧
      kT'[0]? = some [5] ∧ kT'[1]? = some [5]) ∧
    (∃ eqT' kT',
      writeAngle [(0, 1, 2), (2, 1, 0)] (zerosT 2 1, zerosT 2 1)
          ⟨0, 1, 2, 2, 7⟩ = Except.ok (eqT', kT') ∧
      eqT'[0]? = some [2] ∧ eqT'[1]? = some [2] ∧
      kT'[0]? = some [7] ∧ kT'[1]? = some [7]) := by
  constructor
  · exact bond_angle_symmetric_duplication.1 [(0, 1), (1, 0)]
      (zerosT 2 1) (zerosT 2 1) ⟨0, 1, 3 / 2, 5⟩ 0 1
      (by decide) (by decide) (by decide) (by decide)
  · exact bond_angle_symmetric_duplication.2 [(0, 1, 2), (2, 1, 0)]
      (zerosT 2 1) (zerosT 2 1) ⟨0, 1, 2, 2, 7⟩ 0 1
      (by decide) (by decide) (by decide) (by decide)

/-! ### Claim theorem: C7 -/

theorem writeBond_error_eq {n2idxs : List (Nat × Nat)}
    {st : Tensor2 × Tensor2} {b : BondTerm} {e : String}
    (h : writeBond n2idxs st b = Except.error e) : e = "KeyError" := by
  unfold writeBond at h
  cases h1 : lastIdxOf n2idxs (b.idx0, b.idx1) with
  | none => rw [h1] at h; cases h; rfl
  | some p =>
    rw [h1] at h
    cases h2 : lastIdxOf n2idxs (b.idx1, b.idx0) with
    | none => rw [h2] at h; cases h; rfl
    | some q => rw [h2] at h; cases h

theorem bondLoop_error_eq {n2idxs : List (Nat × Nat)} :
    ∀ {bs : List BondTerm} {st : Tensor2 × Tensor2} {e : String},
      bondLoop n2idxs st bs = Except.error e → e = "KeyError" := by
  intro bs
  induction bs with
  | nil => intro st e h; cases h
  | cons b rest ih =>
    intro st e h
    unfold bondLoop at h
    cases hw : writeBond n2idxs st b with
    | error e' =>
      rw [hw] at h
      cases h
      exact writeBond_error_eq hw
    | ok st' =>
      rw [hw] at h
      exact ih h

theorem writeAngle_error_eq {n3idxs : List (Nat × Nat × Nat)}
    {st : Tensor2 × Tensor2} {a : AngleTerm} {e : String}
    (h : writeAngle n3idxs st a = Except.error e) : e = "KeyError" := by
  unfold writeAngle at h
  cases h1 : lastIdxOf n3idxs (a.idx0, a.idx1, a.idx2) with
  | none => rw [h1] at h; cases h; rfl
  | some p =>
    rw [h1] at h
    cases h2 : lastIdxOf n3idxs (a.idx2, a.idx1, a.idx0) with
    | none => rw [h2] at h; cases h; rfl
    | some q => rw [h2] at h; cases h

theorem angleLoop_error_eq {n3idxs : List (Nat × Nat × Nat)} :
    ∀ {as_ : List AngleTerm} {st : Tensor2 × Tensor2} {e : String},
      angleLoop n3idxs st as_ = Except.error e → e = "KeyError" := by
  intro as_
  induction as_ with
  | nil => intro st e h; cases h
  | cons a rest ih =>
    intro st e h
    unfold angleLoop at h
    cases hw : writeAngle n3idxs st a with
    | error e' =>
      rw [hw] at h
      cases h
      exact writeAngle_error_eq hw
    | ok st' =>
      rw [hw] at h
      exact ih h

/-- C7: `_parametrize_gaff` requires `number_of_nodes("n2") = 2 *
numBonds` and `number_of_nodes("n3") = 2 * numAngles`; under this
precondition neither assertion fires (only a `KeyError` from a missing
index tuple is still possible), and for a violating graph the block fails
with `AssertionError` — the size check precedes all writes, so no bond or
angle parameters of that force are written. -/
theorem gaff_assertion_spec (g : Graph) (bonds : List BondTerm)
    (angles : List AngleTerm) :
    (bonds.length * 2 = g.n2count →
      processBondForce g bonds ≠ Except.error "AssertionError") ∧
    (bonds.length * 2 ≠ g.n2count →
      processBondForce g bonds = Except.error "AssertionError") ∧
    (angles.length * 2 = g.n3count →
      processAngleForce g angles ≠ Except.error "AssertionError") ∧
    (angles.length * 2 ≠ g.n3count →
      processAngleForce g angles = Except.error "AssertionError") := by
  refine ⟨?_, ?_, ?_, ?_⟩
  · intro hsz hcontra
    unfold processBondForce at hcontra
    rw [if_pos hsz] at hcontra
    cases hl : bondLoop g.n2_idxs
        (zerosT (bonds.length * 2) 1, zerosT (bonds.length * 2) 1) bonds with
    | error e =>
      rw [hl] at hcontra
      cases hcontra
      exact absurd (bondLoop_error_eq hl) (by decide)
    | ok st => rw [hl] at hcontra; cases hcontra
  · intro hsz
    unfold processBondForce
    rw [if_neg hsz]
  · intro hsz hcontra
    unfold processAngleForce at hcontra
    rw [if_pos hsz] at hcontra
    cases hl : angleLoop g.n3_idxs
        (zerosT (angles.length * 2) 1, zerosT (angles.length * 2) 1) angles with
    | error e =>
      rw [hl] at hcontra
      cases hcontra
      exact absurd (angleLoop_error_eq hl) (by decide)
    | ok st => rw [hl] at hcontra; cases hcontra
  · intro hsz
    unfold processAngleForce
    rw [if_neg hsz]

/-- C7 witness: a matching bond force passes the assertion, a mismatched
one fails it (and likewise for angles). -/
theorem gaff_assertion_spec_witness :
    processBondForce
        { n1count := 2, n1_data := [], xyz := [],
          n2_idxs := [(0, 1), (1, 0)], n2_data := [], n3_idxs := [],
          n3_data := [], n4_idxs := [], n4_data := [],
          n4_improper_idxs := [], n4_improper_data := [], g_data := [] }
        [⟨0, 1, 1, 1⟩] ≠ Except.error "AssertionError" ∧
    processBondForce
        { n1count := 2, n1_data := [], xyz := [],
          n2_idxs := [(0, 1)], n2_data := [], n3_idxs := [],
          n3_data := [], n4_idxs := [], n4_data := [],
          n4_improper_idxs := [], n4_improper_data := [], g_data := [] }
        [⟨0, 1, 1, 1⟩] = Except.error "AssertionError" ∧
    processAngleForce
        { n1count := 3, n1_data := [], xyz := [], n2_idxs := [],
          n2_data := [], n3_idxs := [(0, 1, 2), (2, 1, 0)], n3_data := [],
          n4_idxs := [], n4_data := [], n4_improper_idxs := [],
          n4_improper_data := [], g_data := [] }
        [⟨0, 1, 2, 1, 1⟩] ≠ Except.error "AssertionError" ∧
    processAngleForce
        { n1count := 3, n1_data := [], xyz := [], n2_idxs := [],
          n2_data := [], n3_idxs := [(0, 1, 2)], n3_data := [],
          n4_idxs := [], n4_data := [], n4_improper_idxs := [],
          n4_improper_data := [], g_data := [] }
        [⟨0, 1, 2, 1, 1⟩] = Except.error "AssertionError" := by
  refine ⟨?_, ?_, ?_, ?_⟩
  · exact (gaff_assertion_spec _ [⟨0, 1, 1, 1⟩] []).1 (by decide)
  · exact (gaff_assertion_spec _ [⟨0, 1, 1, 1⟩] []).2.1 (by decide)
  · exact (gaff_assertion_spec _ [] [⟨0, 1, 2, 1, 1⟩]).2.2.1 (by decide)
  · exact (gaff_assertion_spec _ [] [⟨0, 1, 2, 1, 1⟩]).2.2.2 (by decide)

/-! ### The GAFF torsion step -/

/-- Well-formedness of the three torsion tensors: `n` rows of `m` columns
each. -/
def TorsionState.wf (st : TorsionState) (n m : Nat) : Prop :=
  st.1.length = n ∧ (∀ row ∈ st.1, row.length = m) ∧
  st.2.1.length = n ∧ (∀ row ∈ st.2.1, row.length = m) ∧
  st.2.2.length = n ∧ (∀ row ∈ st.2.2, row.length = m)

/-- Full behaviour of one GAFF torsion-loop iteration for a term whose
quadruple and reversed quadruple are both in the lookup table and whose
forward row still has a free column: `0.5 * k`, phase and periodicity are
written at column `subIdx` of the forward and of the reversed position, and
every other cell of the three tensors is untouched. -/
theorem gaffStep_writes {n4idxs : List (Nat × Nat × Nat × Nat)}
    {nMaxPhases : Nat} {st : TorsionState} {t : TorsionTerm} {p q c : Nat}
    (hwf : st.wf n4idxs.length nMaxPhases)
    (hfwd : lastIdxOf n4idxs (t.idx0, t.idx1, t.idx2, t.idx3) = some p)
    (hrev : lastIdxOf n4idxs (t.idx3, t.idx2, t.idx1, t.idx0) = some q)
    (hfree : firstFreeCol st.1 p nMaxPhases = some c) :
    applyGaffTorsionTerm n4idxs nMaxPhases st t =
      Except.ok
        (setEntry (setEntry st.1 p c (0.5 * t.k)) q c (0.5 * t.k),
         setEntry (setEntry st.2.1 p c t.phase) q c t.phase,
         setEntry (setEntry st.2.2 p c t.periodicity) q c t.periodicity) ∧
    (getEntry? st.1 p c = some 0 ∧
      ∀ j, j < c → getEntry? st.1 p j ≠ some 0) ∧
    ∀ st', applyGaffTorsionTerm n4idxs nMaxPhases st t = Except.ok st' →
      getEntry? st'.1 p c = some (0.5 * t.k) ∧
      getEntry? st'.1 q c = some (0.5 * t.k) ∧
      getEntry? st'.2.1 p c = some t.phase ∧
      getEntry? st'.2.1 q c = some t.phase ∧
      getEntry? st'.2.2 p c = some t.periodicity ∧
      getEntry? st'.2.2 q c = some t.periodicity ∧
      (∀ i j, (i ≠ p ∧ i ≠ q) ∨ j ≠ c →
        getEntry? st'.1 i j = getEntry? st.1 i j ∧
        getEntry? st'.2.1 i j = getEntry? st.2.1 i j ∧
        getEntry? st'.2.2 i j = getEntry? st.2.2 i j) := by
  obtain ⟨hl1, hr1, hl2, hr2, hl3, hr3⟩ := hwf
  obtain ⟨hc, hzero, hmin⟩ := firstFreeCol_spec hfree
  have hp : p < n4idxs.length := lastIdxOf_lt_length hfwd
  have hq : q < n4idxs.length := lastIdxOf_lt_length hrev
  have heq : applyGaffTorsionTerm n4idxs nMaxPhases st t =
      Except.ok
        (setEntry (setEntry st.1 p c (0.5 * t.k)) q c (0.5 * t.k),
         setEntry (setEntry st.2.1 p c t.phase) q c t.phase,
         setEntry (setEntry st.2.2 p c t.periodicity) q c
           t.periodicity) := by
    unfold applyGaffTorsionTerm
    rw [hfwd]
    simp only [hfree, hrev]
  refine ⟨heq, ⟨hzero, hmin⟩, ?_⟩
  intro st' hok
  rw [heq] at hok
  cases hok
  obtain ⟨w1q, hw1q⟩ := getEntry?_isSome_of_wf (i := q) hr1 (by omega) hc
  obtain ⟨w2p, hw2p⟩ := getEntry?_isSome_of_wf (i := p) hr2 (by omega) hc
  obtain ⟨w2q, hw2q⟩ := getEntry?_isSome_of_wf (i := q) hr2 (by omega) hc
  obtain ⟨w3p, hw3p⟩ := getEntry?_isSome_of_wf (i := p) hr3 (by omega) hc
  obtain ⟨w3q, hw3q⟩ := getEntry?_isSome_of_wf (i := q) hr3 (by omega) hc
  obtain ⟨h1p, h1q⟩ := getEntry?_setEntry_twice (v := 0.5 * t.k) hzero hw1q
  obtain ⟨h2p, h2q⟩ := getEntry?_setEntry_twice (v := t.phase) hw2p hw2q
  obtain ⟨h3p, h3q⟩ :=
    getEntry?_setEntry_twice (v := t.periodicity) hw3p hw3q
  refine ⟨h1p, h1q, h2p, h2q, h3p, h3q, ?_⟩
  intro i j hij
  exact ⟨getEntry?_setEntry_twice_frame hij,
    getEntry?_setEntry_twice_frame hij,
    getEntry?_setEntry_twice_frame hij⟩

/-! ### Claim theorem: C3 -/

/-- C3: in GAFF parametrization, every proper torsion term `(i, j, k, l)`
of the `PeriodicTorsionForce` whose quadruple is in the `n4` lookup table
(with its reverse also present, as in every espaloma graph) stores `0.5`
times the OpenMM force constant (in espaloma energy units), together with
the unchanged phase and periodicity, at the same Fourier column both at
the `n4` position of `(i, j, k, l)` and at the position of the reversed
quadruple `(l, k, j, i)`. -/
theorem torsion_symmetric_duplication_halved_k
    (n4idxs : List (Nat × Nat × Nat × Nat)) (nMaxPhases : Nat)
    (st : TorsionState) (t : TorsionTerm) (p q c : Nat)
    (hwf : st.wf n4idxs.length nMaxPhases)
    (hfwd : lastIdxOf n4idxs (t.idx0, t.idx1, t.idx2, t.idx3) = some p)
    (hrev : lastIdxOf n4idxs (t.idx3, t.idx2, t.idx1, t.idx0) = some q)
    (hfree : firstFreeCol st.1 p nMaxPhases = some c) :
    ∃ st', applyGaffTorsionTerm n4idxs nMaxPhases st t = Except.ok st' ∧
      getEntry? st'.1 p c = some (0.5 * t.k) ∧
      getEntry? st'.1 q c = some (0.5 * t.k) ∧
      getEntry? st'.2.1 p c = some t.phase ∧
      getEntry? st'.2.1 q c = some t.phase ∧
      getEntry? st'.2.2 p c = some t.periodicity ∧
      getEntry? st'.2.2 q c = some t.periodicity := by
  obtain ⟨heq, _, hspec⟩ := gaffStep_writes hwf hfwd hrev hfree
  obtain ⟨h1, h2, h3, h4, h5, h6, _⟩ := hspec _ heq
  exact ⟨_, heq, h1, h2, h3, h4, h5, h6⟩

/-- C3 witness: a concrete torsion term `(0,1,2,3)` with `k = 4` stored as
`2` at column `0` of both position `0` (forward) and position `1`
(reverse). -/
theorem torsion_symmetric_duplication_halved_k_witness :
    ∃ st', applyGaffTorsionTerm [(0, 1, 2, 3), (3, 2, 1, 0)] 6
        (zerosT 2 6, zerosT 2 6, zerosT 2 6) ⟨0, 1, 2, 3, 2, 1, 4⟩ =
          Except.ok st' ∧
      getEntry? st'.1 0 0 = some (0.5 * 4) ∧
      getEntry? st'.1 1 0 = some (0.5 * 4) ∧
      getEntry? st'.2.1 0 0 = some 1 ∧
      getEntry? st'.2.1 1 0 = some 1 ∧
      getEntry? st'.2.2 0 0 = some 2 ∧
      getEntry? st'.2.2 1 0 = some 2 := by
  exact torsion_symmetric_duplication_halved_k
    [(0, 1, 2, 3), (3, 2, 1, 0)] 6 (zerosT 2 6, zerosT 2 6, zerosT 2 6)
    ⟨0, 1, 2, 3, 2, 1, 4⟩ 0 1 0
    (by refine ⟨?_, ?_, ?_, ?_, ?_, ?_⟩ <;> decide)
    (by decide) (by decide) (by decide)

/-! ### Field preservation through the GAFF pipeline -/

theorem processBondForce_preserves {g : Graph} {bonds : List BondTerm}
    {g' : Graph} (h : processBondForce g bonds = Except.ok g') :
    g'.n1_data = g.n1_data ∧ g'.n4_improper_data = g.n4_improper_data := by
  unfold processBondForce at h
  by_cases hsz : bonds.length * 2 = g.n2count
  · rw [if_pos hsz] at h
    cases hl : bondLoop g.n2_idxs
        (zerosT (bonds.length * 2) 1, zerosT (bonds.length * 2) 1) bonds with
    | error e => rw [hl] at h; cases h
    | ok st =>
      rw [hl] at h
      obtain ⟨eqT, kT⟩ := st
      cases h
      exact ⟨rfl, rfl⟩
  · rw [if_neg hsz] at h
    cases h

theorem processAngleForce_preserves {g : Graph} {angles : List AngleTerm}
    {g' : Graph} (h : processAngleForce g angles = Except.ok g') :
    g'.n1_data = g.n1_data ∧ g'.n4_improper_data = g.n4_improper_data := by
  unfold processAngleForce at h
  by_cases hsz : angles.length * 2 = g.n3count
  · rw [if_pos hsz] at h
    cases hl : angleLoop g.n3_idxs
        (zerosT (angles.length * 2) 1, zerosT (angles.length * 2) 1) angles with
    | error e => rw [hl] at h; cases h
    | ok st =>
      rw [hl] at h
      obtain ⟨eqT, kT⟩ := st
      cases h
      exact ⟨rfl, rfl⟩
  · rw [if_neg hsz] at h
    cases h

theorem processForce_preserves {nMaxPhases : Nat} {g : Graph}
    {t : TorsionState} {f : OpenMMForce} {g' : Graph} {t' : TorsionState}
    (h : processForce nMaxPhases (g, t) f = Except.ok (g', t')) :
    g'.n1_data = g.n1_data ∧ g'.n4_improper_data = g.n4_improper_data := by
  cases f with
  | harmonicBond bonds =>
    simp only [processForce] at h
    cases hb : processBondForce g bonds with
    | error e => rw [hb] at h; cases h
    | ok g2 =>
      rw [hb] at h
      cases h
      exact processBondForce_preserves hb
  | harmonicAngle angles =>
    simp only [processForce] at h
    cases ha : processAngleForce g angles with
    | error e => rw [ha] at h; cases h
    | ok g2 =>
      rw [ha] at h
      cases h
      exact processAngleForce_preserves ha
  | periodicTorsion torsions =>
    simp only [processForce] at h
    cases ht : gaffTorsionLoop g.n4_idxs nMaxPhases t torsions with
    | error e => rw [ht] at h; cases h
    | ok t2 =>
      rw [ht] at h
      cases h
      exact ⟨rfl, rfl⟩
  | otherForce =>
    simp only [processForce] at h
    cases h
    exact ⟨rfl, rfl⟩

theorem gaffForceLoop_preserves {nMaxPhases : Nat} :
    ∀ {forces : List OpenMMForce} {g : Graph} {t : TorsionState}
      {g' : Graph},
      gaffForceLoop nMaxPhases (g, t) forces = Except.ok g' →
      g'.n1_data = g.n1_data ∧
        g'.n4_improper_data = g.n4_improper_data := by
  intro forces
  induction forces with
  | nil =>
    intro g t g' h
    cases h
    exact ⟨rfl, rfl⟩
  | cons f fs ih =>
    intro g t g' h
    unfold gaffForceLoop at h
    cases hp : processForce nMaxPhases (g, t) f with
    | error e => rw [hp] at h; cases h
    | ok st' =>
      rw [hp] at h
      obtain ⟨g2, t2⟩ := st'
      obtain ⟨e1, e2⟩ := ih h
      obtain ⟨p1, p2⟩ := processForce_preserves hp
      exact ⟨by rw [e1]; exact p1, by rw [e2]; exact p2⟩

theorem parametrizeGaff_preserves {g : Graph} {forces : List OpenMMForce}
    {nMaxPhases : Nat} {g' : Graph}
    (h : parametrizeGaff g forces nMaxPhases = Except.ok g') :
    g'.n1_data = g.n1_data ∧ g'.n4_improper_data = g.n4_improper_data :=
  gaffForceLoop_preserves h

/-! ### `lookupAll` specification -/

theorem lookupAll_spec {α β : Type} {f : α → Option β} :
    ∀ {keys : List α} {bs : List β}, lookupAll f keys = Except.ok bs →
      bs.length = keys.length ∧
      ∀ (i : Nat) (a : α), keys[i]? = some a →
        ∃ b, f a = some b ∧ bs[i]? = some b := by
  intro keys
  induction keys with
  | nil =>
    intro bs h
    cases h
    exact ⟨rfl, fun i a ha => by simp at ha⟩
  | cons a rest ih =>
    intro bs h
    unfold lookupAll at h
    cases hf : f a with
    | none => rw [hf] at h; cases h
    | some b =>
      rw [hf] at h
      cases hr : lookupAll f rest with
      | error e => rw [hr] at h; cases h
      | ok bs' =>
        rw [hr] at h
        cases h
        obtain ⟨hlen, hidx⟩ := ih hr
        refine ⟨by simp [hlen], ?_⟩
        intro i a' ha'
        cases i with
        | zero =>
          simp at ha'
          subst ha'
          exact ⟨b, hf, by simp⟩
        | succ i' =>
          simp at ha'
          obtain ⟨b', hb1, hb2⟩ := hidx i' a' (by simpa using ha')
          exact ⟨b', hb1, by simpa using hb2⟩

/-! ### Claim C4 (corrected) -/

/-- A labelling with empty tables; the GAFF path never reads it. -/
def emptyLabels : SmirnoffLabels :=
  { bonds := fun _ => none, angles := fun _ => none, vdW := fun _ => none,
    propers := fun _ => none, impropers := fun _ => none }

/-- A labelling whose bond, angle and vdW tables are total. -/
def totalLabels : SmirnoffLabels :=
  { bonds := fun _ => some { k := 1, length := 1 },
    angles := fun _ => some { k := 1, angle := 1 },
    vdW := fun _ => some { epsilon := 5, rmin_half := 7 },
    propers := fun _ => none, impropers := fun _ => none }

/-- A graph with one `n4_improper` node and no other interactions. -/
def gC4 : Graph :=
  { n1count := 4, n1_data := [], xyz := [], n2_idxs := [], n2_data := [],
    n3_idxs := [], n3_data := [], n4_idxs := [], n4_data := [],
    n4_improper_idxs := [(0, 1, 2, 3)], n4_improper_data := [],
    g_data := [] }

/-- The graph produced by the GAFF path on `gC4`. -/
def gC4res : Graph := applyN4 gC4 (zerosT 0 6, zerosT 0 6, zerosT 0 6)

/-- C4 counterexample: on the GAFF path, `parametrize` succeeds on a graph
with an improper-torsion node yet stores none of the three improper
parameter entries — the `apply_nodes(..., ntype="n4_improper")` call of
`_parametrize_gaff` is commented out in the source. -/
theorem gaff_path_improper_data_missing :
    parametrize "gaff-1.81" emptyLabels [OpenMMForce.periodicTorsion []] 6
        gC4 = Except.ok gC4res ∧
    gC4res.n4impcount = 1 ∧
    dictGet gC4res.n4_improper_data "k_ref" = none ∧
    dictGet gC4res.n4_improper_data "periodicity_ref" = none ∧
    dictGet gC4res.n4_improper_data "phases_ref" = none :=
  ⟨rfl, rfl, rfl, rfl, rfl⟩

/-- C4 (amended): `parametrize` writes improper-torsion parameter data
(`k_ref`, `periodicity_ref`, `phases_ref`) onto the `n4_improper` nodes on
the SMIRNOFF/OpenFF path; on the GAFF path the improper tensors are
allocated but never applied (the `apply_nodes` call is commented out), and
the `n4_improper` node data is left unchanged. -/
theorem improper_params_smirnoff_only :
    (∀ (labels : SmirnoffLabels) (nMaxPhases : Nat) (g g' : Graph),
      parametrizeSmirnoff labels nMaxPhases g = Except.ok g' →
      dictGet g'.n4_improper_data "k_ref" =
        some (torsionTensorsFromLabels g.n4_improper_idxs labels.impropers
          nMaxPhases).1 ∧
      dictGet g'.n4_improper_data "periodicity_ref" =
        some (torsionTensorsFromLabels g.n4_improper_idxs labels.impropers
          nMaxPhases).2.2 ∧
      dictGet g'.n4_improper_data "phases_ref" =
        some (torsionTensorsFromLabels g.n4_improper_idxs labels.impropers
          nMaxPhases).2.1) ∧
    (∀ (g : Graph) (forces : List OpenMMForce) (nMaxPhases : Nat)
        (g' : Graph),
      parametrizeGaff g forces nMaxPhases = Except.ok g' →
      g'.n4_improper_data = g.n4_improper_data) := by
  constructor
  · intro labels nMaxPhases g g' h
    unfold parametrizeSmirnoff at h
    cases h1 : lookupAll labels.bonds g.n2_idxs with
    | error e => rw [h1] at h; cases h
    | ok bondLabels =>
      rw [h1] at h
      cases h2 : lookupAll labels.angles g.n3_idxs with
      | error e => rw [h2] at h; cases h
      | ok angleLabels =>
        rw [h2] at h
        cases h3 : lookupAll labels.vdW (List.range g.n1count) with
        | error e => rw [h3] at h; cases h
        | ok vdWLabels =>
          rw [h3] at h
          cases h
          refine ⟨?_, ?_, ?_⟩
          · rw [dictGet_dictSet_ne _ (by decide),
              dictGet_dictSet_ne _ (by decide)]
            exact dictGet_dictSet_self _ _ _
          · rw [dictGet_dictSet_ne _ (by decide)]
            exact dictGet_dictSet_self _ _ _
          · exact dictGet_dictSet_self _ _ _
  · intro g forces nMaxPhases g' h
    exact (parametrizeGaff_preserves h).2

/-- C4 amended-claim witness: a concrete SMIRNOFF run stores the three
improper entries, and a concrete GAFF run leaves `n4_improper` data
untouched. -/
theorem improper_params_smirnoff_only_witness :
    (∃ g', parametrizeSmirnoff totalLabels 6 gC4 = Except.ok g' ∧
      dictGet g'.n4_improper_data "k_ref" =
        some (torsionTensorsFromLabels gC4.n4_improper_idxs
          totalLabels.impropers 6).1) ∧
    (∃ g', parametrizeGaff gC4 [OpenMMForce.periodicTorsion []] 6 =
        Except.ok g' ∧ g'.n4_improper_data = gC4.n4_improper_data) := by
  constructor
  · refine ⟨_, rfl, ?_⟩
    exact (improper_params_smirnoff_only.1 totalLabels 6 gC4 _ rfl).1
  · refine ⟨gC4res, rfl, ?_⟩
    exact improper_params_smirnoff_only.2 gC4
      [OpenMMForce.periodicTorsion []] 6 gC4res rfl

/-! ### Claim C5 (corrected) -/

/-- A graph with two atoms and no interactions. -/
def gC5 : Graph :=
  { n1count := 2, n1_data := [], xyz := [], n2_idxs := [], n2_data := [],
    n3_idxs := [], n3_data := [], n4_idxs := [], n4_data := [],
    n4_improper_idxs := [], n4_improper_data := [], g_data := [] }

/-- The graph produced by the GAFF path on `gC5`. -/
def gC5res : Graph := applyN4 gC5 (zerosT 0 6, zerosT 0 6, zerosT 0 6)

/-- C5 counterexample: on the GAFF path, `parametrize` succeeds on a graph
with atoms yet writes neither `epsilon_ref` nor `sigma_ref` onto the `n1`
nodes — `_parametrize_gaff` contains no van der Waals block at all. -/
theorem gaff_path_vdw_data_missing :
    parametrize "gaff-1.81" emptyLabels [OpenMMForce.otherForce] 6 gC5 =
      Except.ok gC5res ∧
    gC5res.n1count = 2 ∧
    dictGet gC5res.n1_data "epsilon_ref" = none ∧
    dictGet gC5res.n1_data "sigma_ref" = none :=
  ⟨rfl, rfl, rfl, rfl⟩

/-- C5 (amended): per-atom van der Waals parameters are written only on
the SMIRNOFF/OpenFF path, where `epsilon_ref` is the labelled `epsilon` in
espaloma energy units and `sigma_ref` is the labelled `rmin_half` in
espaloma distance units; the GAFF path leaves the `n1` node data
unchanged. -/
theorem vdw_params_smirnoff_only :
    (∀ (labels : SmirnoffLabels) (nMaxPhases : Nat) (g g' : Graph),
      parametrizeSmirnoff labels nMaxPhases g = Except.ok g' →
      ∃ vdWLabels,
        lookupAll labels.vdW (List.range g.n1count) =
          Except.ok vdWLabels ∧
        dictGet g'.n1_data "sigma_ref" =
          some (column (vdWLabels.map (fun l => l.rmin_half))) ∧
        dictGet g'.n1_data "epsilon_ref" =
          some (column (vdWLabels.map (fun l => l.epsilon))) ∧
        vdWLabels.length = g.n1count ∧
        (∀ i, i < g.n1count →
          ∃ lbl, labels.vdW i = some lbl ∧ vdWLabels[i]? = some lbl)) ∧
    (∀ (g : Graph) (forces : List OpenMMForce) (nMaxPhases : Nat)
        (g' : Graph),
      parametrizeGaff g forces nMaxPhases = Except.ok g' →
      g'.n1_data = g.n1_data) := by
  constructor
  · intro labels nMaxPhases g g' h
    unfold parametrizeSmirnoff at h
    cases h1 : lookupAll labels.bonds g.n2_idxs with
    | error e => rw [h1] at h; cases h
    | ok bondLabels =>
      rw [h1] at h
      cases h2 : lookupAll labels.angles g.n3_idxs with
      | error e => rw [h2] at h; cases h
      | ok angleLabels =>
        rw [h2] at h
        cases h3 : lookupAll labels.vdW (List.range g.n1count) with
        | error e => rw [h3] at h; cases h
        | ok vdWLabels =>
          rw [h3] at h
          cases h
          obtain ⟨hlen, hidx⟩ := lookupAll_spec h3
          refine ⟨vdWLabels, rfl, ?_, ?_, by simpa using hlen, ?_⟩
          · exact dictGet_dictSet_self _ _ _
          · rw [dictGet_dictSet_ne _ (by decide)]
            exact dictGet_dictSet_self _ _ _
          · intro i hi
            exact hidx i i (List.getElem?_range hi)
  · intro g forces nMaxPhases g' h
    exact (parametrizeGaff_preserves h).1

/-- C5 amended-claim witness: a concrete SMIRNOFF run stores `epsilon_ref`
and `sigma_ref` from the labelled `epsilon` / `rmin_half`, and a concrete
GAFF run leaves the `n1` data untouched. -/
theorem vdw_params_smirnoff_only_witness :
    (∃ g' vdWLabels,
      parametrizeSmirnoff totalLabels 6 gC5 = Except.ok g' ∧
      lookupAll totalLabels.vdW (List.range gC5.n1count) =
        Except.ok vdWLabels ∧
      dictGet g'.n1_data "sigma_ref" =
        some (column (vdWLabels.map (fun l => l.rmin_half))) ∧
      dictGet g'.n1_data "epsilon_ref" =
        some (column (vdWLabels.map (fun l => l.epsilon)))) ∧
    (∃ g', parametrizeGaff gC5 [OpenMMForce.otherForce] 6 =
        Except.ok g' ∧ g'.n1_data = gC5.n1_data) := by
  constructor
  · obtain ⟨vdWLabels, hL, hs, he, _, _⟩ :=
      vdw_params_smirnoff_only.1 totalLabels 6 gC5 _ rfl
    exact ⟨_, vdWLabels, rfl, hL, hs, he⟩
  · refine ⟨gC5res, rfl, ?_⟩
    exact vdw_params_smirnoff_only.2 gC5 [OpenMMForce.otherForce] 6
      gC5res rfl

/-! ### Lemmas for the torsion padding claim: well-formedness -/

theorem zerosT_wf (n m : Nat) :
    TorsionState.wf (zerosT n m, zerosT n m, zerosT n m) n m := by
  have hrows : ∀ row ∈ zerosT n m, row.length = m := by
    intro row hrow
    rw [List.eq_of_mem_replicate hrow]
    exact List.length_replicate _ _
  exact ⟨zerosT_length n m, hrows, zerosT_length n m, hrows,
    zerosT_length n m, hrows⟩

theorem writeFourierTerm_wf {fterms : List (Option FourierTerm)}
    {idx : Nat} {st : TorsionState} {n m : Nat} (hwf : st.wf n m)
    (subIdx : Nat) : (writeFourierTerm fterms idx st subIdx).wf n m := by
  obtain ⟨h1, h2, h3, h4, h5, h6⟩ := hwf
  unfold writeFourierTerm
  cases fterms[subIdx]? with
  | none => exact ⟨h1, h2, h3, h4, h5, h6⟩
  | some o =>
    cases o with
    | none => exact ⟨h1, h2, h3, h4, h5, h6⟩
    | some ft =>
      exact ⟨by rw [setEntry_length]; exact h1,
        rows_length_setEntry h2 _ _ _,
        by rw [setEntry_length]; exact h3,
        rows_length_setEntry h4 _ _ _,
        by rw [setEntry_length]; exact h5,
        rows_length_setEntry h6 _ _ _⟩

theorem foldl_writeFourierTerm_wf {fterms : List (Option FourierTerm)}
    {idx : Nat} {n m : Nat} :
    ∀ (l : List Nat) {st : TorsionState}, st.wf n m →
      (l.foldl (writeFourierTerm fterms idx) st).wf n m := by
  intro l
  induction l with
  | nil => intro st h; exact h
  | cons s rest ih =>
    intro st h
    exact ih (writeFourierTerm_wf h s)

theorem torsionRowStep_wf {idxs : List (Nat × Nat × Nat × Nat)}
    {force : Nat × Nat × Nat × Nat → Option (List (Option FourierTerm))}
    {st : TorsionState} {n m : Nat} (hwf : st.wf n m) (idx : Nat) :
    (torsionRowStep idxs force st idx).wf n m := by
  cases hq : idxs[idx]? with
  | none => simp only [torsionRowStep, hq]; exact hwf
  | some q =>
    cases hf : force q with
    | none => simp only [torsionRowStep, hq, hf]; exact hwf
    | some fterms =>
      simp only [torsionRowStep, hq, hf]
      exact foldl_writeFourierTerm_wf _ hwf

theorem foldl_torsionRowStep_wf {idxs : List (Nat × Nat × Nat × Nat)}
    {force : Nat × Nat × Nat × Nat → Option (List (Option FourierTerm))}
    {n m : Nat} :
    ∀ (l : List Nat) {st : TorsionState}, st.wf n m →
      (l.foldl (torsionRowStep idxs force) st).wf n m := by
  intro l
  induction l with
  | nil => intro st h; exact h
  | cons s rest ih =>
    intro st h
    exact ih (torsionRowStep_wf h s)

/-! ### Lemmas for the torsion padding claim: frame conditions -/

theorem getEntry?_congr_row {t t' : Tensor2} {i : Nat}
    (h : t[i]? = t'[i]?) (j : Nat) : getEntry? t i j = getEntry? t' i j := by
  unfold getEntry?
  rw [h]

theorem writeFourierTerm_row_ne {fterms : List (Option FourierTerm)}
    {idx : Nat} (st : TorsionState) (subIdx : Nat) {r : Nat}
    (h : r ≠ idx) :
    (writeFourierTerm fterms idx st subIdx).1[r]? = st.1[r]? ∧
    (writeFourierTerm fterms idx st subIdx).2.1[r]? = st.2.1[r]? ∧
    (writeFourierTerm fterms idx st subIdx).2.2[r]? = st.2.2[r]? := by
  unfold writeFourierTerm
  cases fterms[subIdx]? with
  | none => exact ⟨rfl, rfl, rfl⟩
  | some o =>
    cases o with
    | none => exact ⟨rfl, rfl, rfl⟩
    | some ft =>
      exact ⟨setEntry_row_ne h, setEntry_row_ne h, setEntry_row_ne h⟩

theorem foldl_writeFourierTerm_row_ne {fterms : List (Option FourierTerm)}
    {idx r : Nat} (h : r ≠ idx) :
    ∀ (l : List Nat) (st : TorsionState),
      (l.foldl (writeFourierTerm fterms idx) st).1[r]? = st.1[r]? ∧
      (l.foldl (writeFourierTerm fterms idx) st).2.1[r]? = st.2.1[r]? ∧
      (l.foldl (writeFourierTerm fterms idx) st).2.2[r]? = st.2.2[r]? := by
  intro l
  induction l with
  | nil => intro st; exact ⟨rfl, rfl, rfl⟩
  | cons s rest ih =>
    intro st
    obtain ⟨i1, i2, i3⟩ := ih (writeFourierTerm fterms idx st s)
    obtain ⟨w1, w2, w3⟩ := writeFourierTerm_row_ne st s h
    exact ⟨by rw [List.foldl_cons, i1, w1],
      by rw [List.foldl_cons, i2, w2],
      by rw [List.foldl_cons, i3, w3]⟩

theorem torsionRowStep_row_ne {idxs : List (Nat × Nat × Nat × Nat)}
    {force : Nat × Nat × Nat × Nat → Option (List (Option FourierTerm))}
    (st : TorsionState) (idx : Nat) {r : Nat} (h : r ≠ idx) :
    (torsionRowStep idxs force st idx).1[r]? = st.1[r]? ∧
    (torsionRowStep idxs force st idx).2.1[r]? = st.2.1[r]? ∧
    (torsionRowStep idxs force st idx).2.2[r]? = st.2.2[r]? := by
  cases hq : idxs[idx]? with
  | none => simp [torsionRowStep, hq]
  | some q =>
    cases hf : force q with
    | none => simp [torsionRowStep, hq, hf]
    | some fterms =>
      simp only [torsionRowStep, hq, hf]
      exact foldl_writeFourierTerm_row_ne h _ st

theorem foldl_torsionRowStep_row_notin
    (idxs : List (Nat × Nat × Nat × Nat))
    (force : Nat × Nat × Nat × Nat → Option (List (Option FourierTerm)))
    {r : Nat} :
    ∀ (l : List Nat) (st : TorsionState), (∀ s ∈ l, s ≠ r) →
      (l.foldl (torsionRowStep idxs force) st).1[r]? = st.1[r]? ∧
      (l.foldl (torsionRowStep idxs force) st).2.1[r]? = st.2.1[r]? ∧
      (l.foldl (torsionRowStep idxs force) st).2.2[r]? = st.2.2[r]? := by
  intro l
  induction l with
  | nil => intro st _; exact ⟨rfl, rfl, rfl⟩
  | cons s rest ih =>
    intro st hs
    have hsr : r ≠ s := fun he => hs s (List.mem_cons_self s rest) he.symm
    obtain ⟨i1, i2, i3⟩ := ih (torsionRowStep idxs force st s)
      (fun x hx => hs x (List.mem_cons_of_mem s hx))
    obtain ⟨w1, w2, w3⟩ := torsionRowStep_row_ne st s hsr
    exact ⟨by rw [List.foldl_cons, i1, w1],
      by rw [List.foldl_cons, i2, w2],
      by rw [List.foldl_cons, i3, w3]⟩

theorem foldl_torsionRowStep_row_eq
    (idxs : List (Nat × Nat × Nat × Nat))
    (force : Nat × Nat × Nat × Nat → Option (List (Option FourierTerm)))
    {r : Nat} :
    ∀ (n : Nat) (st : TorsionState), r < n →
      ((List.range n).foldl (torsionRowStep idxs force) st).1[r]? =
        (torsionRowStep idxs force
          ((List.range r).foldl (torsionRowStep idxs force) st) r).1[r]? ∧
      ((List.range n).foldl (torsionRowStep idxs force) st).2.1[r]? =
        (torsionRowStep idxs force
          ((List.range r).foldl (torsionRowStep idxs force) st) r).2.1[r]? ∧
      ((List.range n).foldl (torsionRowStep idxs force) st).2.2[r]? =
        (torsionRowStep idxs force
          ((List.range r).foldl (torsionRowStep idxs force) st) r).2.2[r]? := by
  intro n
  induction n with
  | zero => intro st h; omega
  | succ n ih =>
    intro st h
    rw [List.range_succ, List.foldl_append]
    by_cases hr : r = n
    · subst hr
      exact ⟨rfl, rfl, rfl⟩
    · have hlt : r < n := by omega
      obtain ⟨s1, s2, s3⟩ := torsionRowStep_row_ne
        ((List.range n).foldl (torsionRowStep idxs force) st) n
        (r := r) hr
      obtain ⟨i1, i2, i3⟩ := ih st hlt
      simp only [List.foldl_cons, List.foldl_nil]
      exact ⟨s1.trans i1, s2.trans i2, s3.trans i3⟩

theorem writeFourierTerm_cell_ne {fterms : List (Option FourierTerm)}
    {idx : Nat} (st : TorsionState) (subIdx : Nat) {i c : Nat}
    (h : c ≠ subIdx) :
    getEntry? (writeFourierTerm fterms idx st subIdx).1 i c =
      getEntry? st.1 i c ∧
    getEntry? (writeFourierTerm fterms idx st subIdx).2.1 i c =
      getEntry? st.2.1 i c ∧
    getEntry? (writeFourierTerm fterms idx st subIdx).2.2 i c =
      getEntry? st.2.2 i c := by
  unfold writeFourierTerm
  cases fterms[subIdx]? with
  | none => exact ⟨rfl, rfl, rfl⟩
  | some o =>
    cases o with
    | none => exact ⟨rfl, rfl, rfl⟩
    | some ft =>
      exact ⟨getEntry?_setEntry_ne (Or.inr h),
        getEntry?_setEntry_ne (Or.inr h),
        getEntry?_setEntry_ne (Or.inr h)⟩

theorem foldl_writeFourierTerm_cell_notin
    (fterms : List (Option FourierTerm)) (idx : Nat) {i c : Nat} :
    ∀ (l : List Nat) (st : TorsionState), (∀ s ∈ l, s ≠ c) →
      getEntry? (l.foldl (writeFourierTerm fterms idx) st).1 i c =
        getEntry? st.1 i c ∧
      getEntry? (l.foldl (writeFourierTerm fterms idx) st).2.1 i c =
        getEntry? st.2.1 i c ∧
      getEntry? (l.foldl (writeFourierTerm fterms idx) st).2.2 i c =
        getEntry? st.2.2 i c := by
  intro l
  induction l with
  | nil => intro st _; exact ⟨rfl, rfl, rfl⟩
  | cons s rest ih =>
    intro st hs
    have hcs : c ≠ s := fun he => hs s (List.mem_cons_self s rest) he.symm
    obtain ⟨i1, i2, i3⟩ := ih (writeFourierTerm fterms idx st s)
      (fun x hx => hs x (List.mem_cons_of_mem s hx))
    obtain ⟨w1, w2, w3⟩ := writeFourierTerm_cell_ne (i := i) st s hcs
    exact ⟨by rw [List.foldl_cons, i1, w1],
      by rw [List.foldl_cons, i2, w2],
      by rw [List.foldl_cons, i3, w3]⟩

theorem foldl_writeFourierTerm_cell_eq
    (fterms : List (Option FourierTerm)) (idx : Nat) {i c : Nat} :
    ∀ (m : Nat) (st : TorsionState), c < m →
      getEntry? ((List.range m).foldl (writeFourierTerm fterms idx) st).1
          i c =
        getEntry? (writeFourierTerm fterms idx
          ((List.range c).foldl (writeFourierTerm fterms idx) st) c).1
          i c ∧
      getEntry? ((List.range m).foldl (writeFourierTerm fterms idx) st).2.1
          i c =
        getEntry? (writeFourierTerm fterms idx
          ((List.range c).foldl (writeFourierTerm fterms idx) st) c).2.1
          i c ∧
      getEntry? ((List.range m).foldl (writeFourierTerm fterms idx) st).2.2
          i c =
        getEntry? (writeFourierTerm fterms idx
          ((List.range c).foldl (writeFourierTerm fterms idx) st) c).2.2
          i c := by
  intro m
  induction m with
  | zero => intro st h; omega
  | succ m ih =>
    intro st h
    rw [List.range_succ, List.foldl_append]
    by_cases hc : c = m
    · subst hc
      exact ⟨rfl, rfl, rfl⟩
    · have hlt : c < m := by omega
      obtain ⟨s1, s2, s3⟩ := writeFourierTerm_cell_ne (i := i)
        ((List.range m).foldl (writeFourierTerm fterms idx) st) m hc
      obtain ⟨i1, i2, i3⟩ := ih st hlt
      simp only [List.foldl_cons, List.foldl_nil]
      exact ⟨s1.trans i1, s2.trans i2, s3.trans i3⟩

/-! ### GAFF torsion loop: well-formedness and frame -/

theorem applyGaffTorsionTerm_wf {n4idxs : List (Nat × Nat × Nat × Nat)}
    {nMaxPhases : Nat} {st st' : TorsionState} {t : TorsionTerm}
    {n m : Nat} (h : applyGaffTorsionTerm n4idxs nMaxPhases st t =
      Except.ok st') (hwf : st.wf n m) : st'.wf n m := by
  unfold applyGaffTorsionTerm at h
  cases hf : lastIdxOf n4idxs (t.idx0, t.idx1, t.idx2, t.idx3) with
  | none => rw [hf] at h; cases h; exact hwf
  | some p =>
    rw [hf] at h
    cases hc : firstFreeCol st.1 p nMaxPhases with
    | none => simp only [hc] at h; cases h; exact hwf
    | some c =>
      simp only [hc] at h
      cases hr : lastIdxOf n4idxs (t.idx3, t.idx2, t.idx1, t.idx0) with
      | none => simp only [hr] at h; cases h
      | some q =>
        simp only [hr] at h
        cases h
        obtain ⟨h1, h2, h3, h4, h5, h6⟩ := hwf
        exact ⟨by rw [setEntry_length, setEntry_length]; exact h1,
          rows_length_setEntry (rows_length_setEntry h2 _ _ _) _ _ _,
          by rw [setEntry_length, setEntry_length]; exact h3,
          rows_length_setEntry (rows_length_setEntry h4 _ _ _) _ _ _,
          by rw [setEntry_length, setEntry_length]; exact h5,
          rows_length_setEntry (rows_length_setEntry h6 _ _ _) _ _ _⟩

theorem gaffTorsionLoop_wf {n4idxs : List (Nat × Nat × Nat × Nat)}
    {nMaxPhases : Nat} {n m : Nat} :
    ∀ {ts : List TorsionTerm} {st st' : TorsionState},
      gaffTorsionLoop n4idxs nMaxPhases st ts = Except.ok st' →
      st.wf n m → st'.wf n m := by
  intro ts
  induction ts with
  | nil =>
    intro st st' h hwf
    cases h
    exact hwf
  | cons t rest ih =>
    intro st st' h hwf
    unfold gaffTorsionLoop at h
    cases hs : applyGaffTorsionTerm n4idxs nMaxPhases st t with
    | error e => rw [hs] at h; cases h
    | ok st2 =>
      rw [hs] at h
      exact ih h (applyGaffTorsionTerm_wf hs hwf)

theorem gaffStep_row_frame {n4idxs : List (Nat × Nat × Nat × Nat)}
    {nMaxPhases : Nat} {st st' : TorsionState} {t : TorsionTerm} {r : Nat}
    (h : applyGaffTorsionTerm n4idxs nMaxPhases st t = Except.ok st')
    (hfwd : lastIdxOf n4idxs (t.idx0, t.idx1, t.idx2, t.idx3) ≠ some r)
    (hrev : lastIdxOf n4idxs (t.idx3, t.idx2, t.idx1, t.idx0) ≠ some r) :
    st'.1[r]? = st.1[r]? ∧ st'.2.1[r]? = st.2.1[r]? ∧
      st'.2.2[r]? = st.2.2[r]? := by
  unfold applyGaffTorsionTerm at h
  cases hf : lastIdxOf n4idxs (t.idx0, t.idx1, t.idx2, t.idx3) with
  | none => rw [hf] at h; cases h; exact ⟨rfl, rfl, rfl⟩
  | some p =>
    rw [hf] at h
    have hrp : r ≠ p := fun he => hfwd (he ▸ hf)
    cases hc : firstFreeCol st.1 p nMaxPhases with
    | none => simp only [hc] at h; cases h; exact ⟨rfl, rfl, rfl⟩
    | some c =>
      simp only [hc] at h
      cases hr : lastIdxOf n4idxs (t.idx3, t.idx2, t.idx1, t.idx0) with
      | none => simp only [hr] at h; cases h
      | some q =>
        simp only [hr] at h
        have hrq : r ≠ q := fun he => hrev (he ▸ hr)
        cases h
        exact ⟨by rw [setEntry_row_ne hrq, setEntry_row_ne hrp],
          by rw [setEntry_row_ne hrq, setEntry_row_ne hrp],
          by rw [setEntry_row_ne hrq, setEntry_row_ne hrp]⟩

theorem gaffTorsionLoop_row_frame {n4idxs : List (Nat × Nat × Nat × Nat)}
    {nMaxPhases : Nat} {r : Nat} :
    ∀ {ts : List TorsionTerm} {st st' : TorsionState},
      gaffTorsionLoop n4idxs nMaxPhases st ts = Except.ok st' →
      (∀ t_ ∈ ts,
        lastIdxOf n4idxs (t_.idx0, t_.idx1, t_.idx2, t_.idx3) ≠ some r ∧
        lastIdxOf n4idxs (t_.idx3, t_.idx2, t_.idx1, t_.idx0) ≠ some r) →
      st'.1[r]? = st.1[r]? ∧ st'.2.1[r]? = st.2.1[r]? ∧
        st'.2.2[r]? = st.2.2[r]? := by
  intro ts
  induction ts with
  | nil =>
    intro st st' h _
    cases h
    exact ⟨rfl, rfl, rfl⟩
  | cons t rest ih =>
    intro st st' h hts
    unfold gaffTorsionLoop at h
    cases hs : applyGaffTorsionTerm n4idxs nMaxPhases st t with
    | error e => rw [hs] at h; cases h
    | ok st2 =>
      rw [hs] at h
      obtain ⟨f1, f2⟩ := hts t (List.mem_cons_self t rest)
      obtain ⟨s1, s2, s3⟩ := gaffStep_row_frame hs f1 f2
      obtain ⟨i1, i2, i3⟩ := ih h
        (fun x hx => hts x (List.mem_cons_of_mem t hx))
      exact ⟨i1.trans s1, i2.trans s2, i3.trans s3⟩

/-! ### SMIRNOFF torsion row characterization -/

theorem torsionTensorsFromLabels_row_spec
    {idxs : List (Nat × Nat × Nat × Nat)}
    {force : Nat × Nat × Nat × Nat → Option (List (Option FourierTerm))}
    {nMaxPhases idx : Nat} {q : Nat × Nat × Nat × Nat}
    (hidx : idxs[idx]? = some q) :
    (force q = none →
      (torsionTensorsFromLabels idxs force nMaxPhases).1[idx]? =
        some (List.replicate nMaxPhases 0) ∧
      (torsionTensorsFromLabels idxs force nMaxPhases).2.1[idx]? =
        some (List.replicate nMaxPhases 0) ∧
      (torsionTensorsFromLabels idxs force nMaxPhases).2.2[idx]? =
        some (List.replicate nMaxPhases 0)) ∧
    (∀ fterms, force q = some fterms → fterms.length ≤ nMaxPhases →
      (∀ (c : Nat) (ft : FourierTerm), fterms[c]? = some (some ft) →
        getEntry? (torsionTensorsFromLabels idxs force nMaxPhases).1
            idx c = some ft.k ∧
        getEntry? (torsionTensorsFromLabels idxs force nMaxPhases).2.1
            idx c = some ft.phase ∧
        getEntry? (torsionTensorsFromLabels idxs force nMaxPhases).2.2
            idx c = some ft.periodicity) ∧
      (∀ c : Nat, c < nMaxPhases →
        (fterms[c]? = some none ∨ fterms.length ≤ c) →
        getEntry? (torsionTensorsFromLabels idxs force nMaxPhases).1
            idx c = some 0 ∧
        getEntry? (torsionTensorsFromLabels idxs force nMaxPhases).2.1
            idx c = some 0 ∧
        getEntry? (torsionTensorsFromLabels idxs force nMaxPhases).2.2
            idx c = some 0)) := by
  have hn : idx < idxs.length := by
    rcases List.getElem?_eq_some.mp hidx with ⟨hlt, _⟩
    exact hlt
  set init : TorsionState :=
    (zerosT idxs.length nMaxPhases, zerosT idxs.length nMaxPhases,
     zerosT idxs.length nMaxPhases) with hinit
  have hires : torsionTensorsFromLabels idxs force nMaxPhases =
      (List.range idxs.length).foldl (torsionRowStep idxs force) init :=
    rfl
  obtain ⟨row1, row2, row3⟩ :=
    foldl_torsionRowStep_row_eq idxs force idxs.length init hn
  obtain ⟨y1, y2, y3⟩ :=
    foldl_torsionRowStep_row_notin idxs force (List.range idx) init
      (fun s hs => Nat.ne_of_lt (List.mem_range.mp hs))
  have hinitrow : ∀ u : Tensor2, u = zerosT idxs.length nMaxPhases →
      u[idx]? = some (List.replicate nMaxPhases 0) := by
    intro u hu
    rw [hu, zerosT_getElem?, if_pos hn]
  have hY1 : ((List.range idx).foldl (torsionRowStep idxs force)
      init).1[idx]? = some (List.replicate nMaxPhases 0) := by
    rw [y1]; exact hinitrow _ rfl
  have hY2 : ((List.range idx).foldl (torsionRowStep idxs force)
      init).2.1[idx]? = some (List.replicate nMaxPhases 0) := by
    rw [y2]; exact hinitrow _ rfl
  have hY3 : ((List.range idx).foldl (torsionRowStep idxs force)
      init).2.2[idx]? = some (List.replicate nMaxPhases 0) := by
    rw [y3]; exact hinitrow _ rfl
  have hYwf : (((List.range idx).foldl (torsionRowStep idxs force)
      init)).wf idxs.length nMaxPhases :=
    foldl_torsionRowStep_wf _ (zerosT_wf _ _)
  constructor
  · intro hforce
    have hstep : torsionRowStep idxs force
        ((List.range idx).foldl (torsionRowStep idxs force) init) idx =
        (List.range idx).foldl (torsionRowStep idxs force) init := by
      simp only [torsionRowStep, hidx, hforce]
    rw [hires]
    rw [hstep] at row1 row2 row3
    exact ⟨row1.trans hY1, row2.trans hY2, row3.trans hY3⟩
  · intro fterms hforce hle
    have hstep : torsionRowStep idxs force
        ((List.range idx).foldl (torsionRowStep idxs force) init) idx =
        applyTorsionRow fterms
          ((List.range idx).foldl (torsionRowStep idxs force) init) idx := by
      simp only [torsionRowStep, hidx, hforce]
    rw [hstep] at row1 row2 row3
    set Y := (List.range idx).foldl (torsionRowStep idxs force) init
      with hY
    have hYcell : ∀ c : Nat, c < nMaxPhases →
        getEntry? Y.1 idx c = some 0 ∧ getEntry? Y.2.1 idx c = some 0 ∧
        getEntry? Y.2.2 idx c = some 0 := by
      intro c hc
      refine ⟨?_, ?_, ?_⟩
      · unfold getEntry?
        rw [hY1]
        simp [List.getElem?_replicate, hc]
      · unfold getEntry?
        rw [hY2]
        simp [List.getElem?_replicate, hc]
      · unfold getEntry?
        rw [hY3]
        simp [List.getElem?_replicate, hc]
    constructor
    · intro c ft hft
      have hcm : c < fterms.length := by
        rcases List.getElem?_eq_some.mp hft with ⟨hlt, _⟩
        exact hlt
      obtain ⟨e1, e2, e3⟩ :=
        foldl_writeFourierTerm_cell_eq fterms idx
          (i := idx) (c := c) fterms.length Y hcm
      set Z := (List.range c).foldl (writeFourierTerm fterms idx) Y
        with hZ
      have hZwf : Z.wf idxs.length nMaxPhases :=
        foldl_writeFourierTerm_wf _ hYwf
      obtain ⟨hz1, hz2, hz3, hz4, hz5, hz6⟩ := hZwf
      obtain ⟨w1, hw1⟩ := getEntry?_isSome_of_wf (i := idx) (j := c) hz2
        (by omega) (by omega)
      obtain ⟨w2, hw2⟩ := getEntry?_isSome_of_wf (i := idx) (j := c) hz4
        (by omega) (by omega)
      obtain ⟨w3, hw3⟩ := getEntry?_isSome_of_wf (i := idx) (j := c) hz6
        (by omega) (by omega)
      have hwrite : writeFourierTerm fterms idx Z c =
          (setEntry Z.1 idx c ft.k, setEntry Z.2.1 idx c ft.phase,
           setEntry Z.2.2 idx c ft.periodicity) := by
        simp only [writeFourierTerm, hft]
      rw [hires, getEntry?_congr_row row1, getEntry?_congr_row row2,
        getEntry?_congr_row row3]
      unfold applyTorsionRow
      rw [e1, e2, e3, hwrite]
      exact ⟨getEntry?_setEntry_self _ hw1,
        getEntry?_setEntry_self _ hw2, getEntry?_setEntry_self _ hw3⟩
    · intro c hc hor
      rw [hires, getEntry?_congr_row row1, getEntry?_congr_row row2,
        getEntry?_congr_row row3]
      unfold applyTorsionRow
      rcases hor with hnone | hge
      · have hcm : c < fterms.length := by
          rcases List.getElem?_eq_some.mp hnone with ⟨hlt, _⟩
          exact hlt
        obtain ⟨e1, e2, e3⟩ :=
          foldl_writeFourierTerm_cell_eq fterms idx
            (i := idx) (c := c) fterms.length Y hcm
        have hwrite : writeFourierTerm fterms idx
            ((List.range c).foldl (writeFourierTerm fterms idx) Y) c =
            (List.range c).foldl (writeFourierTerm fterms idx) Y := by
          simp only [writeFourierTerm, hnone]
        rw [e1, e2, e3, hwrite]
        obtain ⟨n1, n2, n3⟩ :=
          foldl_writeFourierTerm_cell_notin fterms idx (i := idx) (c := c) (List.range c) Y
            (fun s hs => Nat.ne_of_lt (List.mem_range.mp hs))
        obtain ⟨z1, z2, z3⟩ := hYcell c hc
        exact ⟨n1.trans z1, n2.trans z2, n3.trans z3⟩
      · obtain ⟨n1, n2, n3⟩ :=
          foldl_writeFourierTerm_cell_notin fterms idx (i := idx) (c := c) (List.range fterms.length) Y
            (fun s hs => by
              have := List.mem_range.mp hs
              omega)
        obtain ⟨z1, z2, z3⟩ := hYcell c hc
        exact ⟨n1.trans z1, n2.trans z2, n3.trans z3⟩

/-! ### Claim theorem: C2 -/

/-- C2: the torsion parameter tensors assigned to `n4` nodes have exactly
`n_max_phases` columns per torsion and start as zeros (1); the GAFF loop
keeps that shape (2); each successive GAFF Fourier term is written into
the first column whose `k` entry is still zero, all cells other than the
forward and reverse positions of that column being untouched (3); rows no
term targets remain zero (4); on the SMIRNOFF path each recorded term
`sub_idx` is written into column `sub_idx` and every column not filled by
a term remains zero (5). -/
theorem torsion_padding_spec :
    (∀ n nMaxPhases i j : Nat,
      getEntry? (zerosT n nMaxPhases) i j =
        if i < n ∧ j < nMaxPhases then some 0 else none) ∧
    (∀ (n4idxs : List (Nat × Nat × Nat × Nat)) (nMaxPhases : Nat)
        (terms : List TorsionTerm) (st' : TorsionState),
      gaffTorsionLoop n4idxs nMaxPhases
          (zerosT n4idxs.length nMaxPhases, zerosT n4idxs.length nMaxPhases,
           zerosT n4idxs.length nMaxPhases) terms = Except.ok st' →
      st'.wf n4idxs.length nMaxPhases) ∧
    (∀ (n4idxs : List (Nat × Nat × Nat × Nat)) (nMaxPhases : Nat)
        (st : TorsionState) (t : TorsionTerm) (p q c : Nat),
      st.wf n4idxs.length nMaxPhases →
      lastIdxOf n4idxs (t.idx0, t.idx1, t.idx2, t.idx3) = some p →
      lastIdxOf n4idxs (t.idx3, t.idx2, t.idx1, t.idx0) = some q →
      firstFreeCol st.1 p nMaxPhases = some c →
      (getEntry? st.1 p c = some 0 ∧
        ∀ j, j < c → getEntry? st.1 p j ≠ some 0) ∧
      ∀ st', applyGaffTorsionTerm n4idxs nMaxPhases st t = Except.ok st' →
        getEntry? st'.1 p c = some (0.5 * t.k) ∧
        getEntry? st'.2.1 p c = some t.phase ∧
        getEntry? st'.2.2 p c = some t.periodicity ∧
        (∀ i j : Nat, (i ≠ p ∧ i ≠ q) ∨ j ≠ c →
          getEntry? st'.1 i j = getEntry? st.1 i j ∧
          getEntry? st'.2.1 i j = getEntry? st.2.1 i j ∧
          getEntry? st'.2.2 i j = getEntry? st.2.2 i j)) ∧
    (∀ (n4idxs : List (Nat × Nat × Nat × Nat)) (nMaxPhases : Nat)
        (terms : List TorsionTerm) (st' : TorsionState) (r : Nat),
      gaffTorsionLoop n4idxs nMaxPhases
          (zerosT n4idxs.length nMaxPhases, zerosT n4idxs.length nMaxPhases,
           zerosT n4idxs.length nMaxPhases) terms = Except.ok st' →
      r < n4idxs.length →
      (∀ t_ ∈ terms,
        lastIdxOf n4idxs (t_.idx0, t_.idx1, t_.idx2, t_.idx3) ≠ some r ∧
        lastIdxOf n4idxs (t_.idx3, t_.idx2, t_.idx1, t_.idx0) ≠ some r) →
      st'.1[r]? = some (List.replicate nMaxPhases 0) ∧
      st'.2.1[r]? = some (List.replicate nMaxPhases 0) ∧
      st'.2.2[r]? = some (List.replicate nMaxPhases 0)) ∧
    (∀ (idxs : List (Nat × Nat × Nat × Nat))
        (force : Nat × Nat × Nat × Nat →
          Option (List (Option FourierTerm)))
        (nMaxPhases idx : Nat) (q : Nat × Nat × Nat × Nat),
      idxs[idx]? = some q →
      (force q = none →
        (torsionTensorsFromLabels idxs force nMaxPhases).1[idx]? =
          some (List.replicate nMaxPhases 0) ∧
        (torsionTensorsFromLabels idxs force nMaxPhases).2.1[idx]? =
          some (List.replicate nMaxPhases 0) ∧
        (torsionTensorsFromLabels idxs force nMaxPhases).2.2[idx]? =
          some (List.replicate nMaxPhases 0)) ∧
      (∀ fterms, force q = some fterms → fterms.length ≤ nMaxPhases →
        (∀ (c : Nat) (ft : FourierTerm), fterms[c]? = some (some ft) →
          getEntry? (torsionTensorsFromLabels idxs force nMaxPhases).1
              idx c = some ft.k ∧
          getEntry? (torsionTensorsFromLabels idxs force nMaxPhases).2.1
              idx c = some ft.phase ∧
          getEntry? (torsionTensorsFromLabels idxs force nMaxPhases).2.2
              idx c = some ft.periodicity) ∧
        (∀ c : Nat, c < nMaxPhases →
          (fterms[c]? = some none ∨ fterms.length ≤ c) →
          getEntry? (torsionTensorsFromLabels idxs force nMaxPhases).1
              idx c = some 0 ∧
          getEntry? (torsionTensorsFromLabels idxs force nMaxPhases).2.1
              idx c = some 0 ∧
          getEntry? (torsionTensorsFromLabels idxs force nMaxPhases).2.2
              idx c = some 0))) := by
  refine ⟨getEntry?_zerosT, ?_, ?_, ?_, ?_⟩
  · intro n4idxs nMaxPhases terms st' h
    exact gaffTorsionLoop_wf h (zerosT_wf _ _)
  · intro n4idxs nMaxPhases st t p q c hwf hfwd hrev hfree
    obtain ⟨heq, hfirst, hspec⟩ := gaffStep_writes hwf hfwd hrev hfree
    refine ⟨hfirst, ?_⟩
    intro st' hok
    obtain ⟨h1, _, h3, _, h5, _, hframe⟩ := hspec st' hok
    exact ⟨h1, h3, h5, hframe⟩
  · intro n4idxs nMaxPhases terms st' r h hr hterms
    obtain ⟨f1, f2, f3⟩ := gaffTorsionLoop_row_frame h hterms
    have hz : (zerosT n4idxs.length nMaxPhases)[r]? =
        some (List.replicate nMaxPhases 0) := by
      rw [zerosT_getElem?, if_pos hr]
    exact ⟨f1.trans hz, f2.trans hz, f3.trans hz⟩
  · intro idxs force nMaxPhases idx q hidx
    exact torsionTensorsFromLabels_row_spec hidx

/-- Index table of the C2 witness: a torsion, its reverse, and a row no
term targets. -/
def c2Idxs : List (Nat × Nat × Nat × Nat) :=
  [(0, 1, 2, 3), (3, 2, 1, 0), (4, 5, 6, 7)]

/-- Two successive Fourier terms of the same torsion quadruple. -/
def c2Terms : List TorsionTerm :=
  [⟨0, 1, 2, 3, 2, 1, 4⟩, ⟨0, 1, 2, 3, 3, 1, 6⟩]

/-- The state after the first C2 witness term. -/
def c2StepResult : TorsionState :=
  ([[2, 0, 0, 0, 0, 0], [2, 0, 0, 0, 0, 0], [0, 0, 0, 0, 0, 0]],
   [[1, 0, 0, 0, 0, 0], [1, 0, 0, 0, 0, 0], [0, 0, 0, 0, 0, 0]],
   [[2, 0, 0, 0, 0, 0], [2, 0, 0, 0, 0, 0], [0, 0, 0, 0, 0, 0]])

/-- The state after both C2 witness terms. -/
def c2LoopResult : TorsionState :=
  ([[2, 3, 0, 0, 0, 0], [2, 3, 0, 0, 0, 0], [0, 0, 0, 0, 0, 0]],
   [[1, 1, 0, 0, 0, 0], [1, 1, 0, 0, 0, 0], [0, 0, 0, 0, 0, 0]],
   [[2, 3, 0, 0, 0, 0], [2, 3, 0, 0, 0, 0], [0, 0, 0, 0, 0, 0]])

/-- The SMIRNOFF label table used as the C2 witness: node `(0,1,2,3)` has
terms at `sub_idx` 0 and 2 and a missing `k1` attribute at `sub_idx` 1. -/
def c2Force (qd : Nat × Nat × Nat × Nat) :
    Option (List (Option FourierTerm)) :=
  if qd = (0, 1, 2, 3) then some [some ⟨1, 2, 3⟩, none, some ⟨4, 5, 6⟩]
  else none

/-- C2 witness: concrete instances of all five parts — zero allocation,
GAFF shape preservation, a first-free-column write, an untargeted zero
row, and a SMIRNOFF row with a recorded term, a gap, trailing zero
columns, and an unlabelled zero row. -/
theorem torsion_padding_spec_witness :
    getEntry? (zerosT 3 6) 2 5 = some 0 ∧
    gaffTorsionLoop c2Idxs 6 (zerosT 3 6, zerosT 3 6, zerosT 3 6)
      c2Terms = Except.ok c2LoopResult ∧
    TorsionState.wf c2LoopResult 3 6 ∧
    applyGaffTorsionTerm c2Idxs 6 (zerosT 3 6, zerosT 3 6, zerosT 3 6)
      ⟨0, 1, 2, 3, 2, 1, 4⟩ = Except.ok c2StepResult ∧
    getEntry? c2StepResult.1 0 0 = some (0.5 * 4) ∧
    getEntry? c2StepResult.2.1 0 0 = some 1 ∧
    c2LoopResult.1[2]? = some (List.replicate 6 0) ∧
    getEntry? (torsionTensorsFromLabels c2Idxs c2Force 6).1 0 0 =
      some 1 ∧
    getEntry? (torsionTensorsFromLabels c2Idxs c2Force 6).1 0 2 =
      some 4 ∧
    getEntry? (torsionTensorsFromLabels c2Idxs c2Force 6).1 0 1 =
      some 0 ∧
    getEntry? (torsionTensorsFromLabels c2Idxs c2Force 6).1 0 5 =
      some 0 ∧
    (torsionTensorsFromLabels c2Idxs c2Force 6).1[1]? =
      some (List.replicate 6 0) := by
  have hloop : gaffTorsionLoop c2Idxs 6 (zerosT 3 6, zerosT 3 6, zerosT 3 6)
      c2Terms = Except.ok c2LoopResult := by
    norm_num [gaffTorsionLoop, applyGaffTorsionTerm, lastIdxOf,
      firstFreeCol, findFirstFree, getEntry?, setEntry, setRow, zerosT,
      c2LoopResult, c2Idxs, c2Terms, List.set, List.replicate]
  have hstepeq : applyGaffTorsionTerm c2Idxs 6
      (zerosT 3 6, zerosT 3 6, zerosT 3 6) ⟨0, 1, 2, 3, 2, 1, 4⟩ =
      Except.ok c2StepResult := by
    norm_num [applyGaffTorsionTerm, lastIdxOf, firstFreeCol,
      findFirstFree, getEntry?, setEntry, setRow, zerosT, c2StepResult,
      c2Idxs, List.set, List.replicate]
  have hzero : getEntry? (zerosT 3 6) 2 5 = some 0 := by
    rw [torsion_padding_spec.1 3 6 2 5]
    decide
  have hwf : TorsionState.wf c2LoopResult 3 6 :=
    torsion_padding_spec.2.1 c2Idxs 6 c2Terms c2LoopResult hloop
  have hstep :=
    (torsion_padding_spec.2.2.1 c2Idxs 6
      (zerosT 3 6, zerosT 3 6, zerosT 3 6) ⟨0, 1, 2, 3, 2, 1, 4⟩ 0 1 0
      (by refine ⟨?_, ?_, ?_, ?_, ?_, ?_⟩ <;> decide)
      (by decide) (by decide) (by decide)).2 c2StepResult hstepeq
  have hrowzero := torsion_padding_spec.2.2.2.1 c2Idxs 6 c2Terms
    c2LoopResult 2 hloop (by decide)
    (by intro t_ ht_
        refine ⟨?_, ?_⟩ <;>
          · revert ht_
            simp only [c2Terms, c2Idxs, List.mem_cons, List.not_mem_nil,
              or_false]
            rintro (rfl | rfl) <;> decide)
  have hsm := torsion_padding_spec.2.2.2.2 c2Idxs c2Force 6 0 (0, 1, 2, 3)
    (by decide)
  have hterms := hsm.2 [some ⟨1, 2, 3⟩, none, some ⟨4, 5, 6⟩]
    (by decide) (by decide)
  have hrow := torsion_padding_spec.2.2.2.2 c2Idxs c2Force 6 1
    (3, 2, 1, 0) (by decide)
  refine ⟨hzero, hloop, hwf, hstepeq, ?_, ?_, ?_, ?_, ?_, ?_, ?_, ?_⟩
  · exact hstep.1
  · exact hstep.2.1
  · exact hrowzero.1
  · exact (hterms.1 0 ⟨1, 2, 3⟩ (by decide)).1
  · exact (hterms.1 2 ⟨4, 5, 6⟩ (by decide)).1
  · exact (hterms.2 1 (by decide) (Or.inl (by decide))).1
  · exact (hterms.2 5 (by decide) (Or.inr (by decide))).1
  · exact (hrow.1 (by decide)).1

/-! ### Lemmas for the `_prepare_gaff` dictionaries -/

theorem removeFirst_sublist {a : String} :
    ∀ {l l' : List String}, removeFirst a l = some l' → l'.Sublist l := by
  intro l
  induction l with
  | nil => intro l' h; cases h
  | cons x xs ih =>
    intro l' h
    unfold removeFirst at h
    by_cases hx : x = a
    · rw [if_pos hx] at h
      cases h
      exact List.sublist_cons_self x xs
    · rw [if_neg hx] at h
      cases hr : removeFirst a xs with
      | none => rw [hr] at h; cases h
      | some l2 =>
        rw [hr] at h
        cases h
        exact List.Sublist.cons₂ x (ih hr)

theorem removeFirst_not_mem {a : String} :
    ∀ {l l' : List String}, removeFirst a l = some l' → l.Nodup →
      a ∉ l' := by
  intro l
  induction l with
  | nil => intro l' h; cases h
  | cons x xs ih =>
    intro l' h hnd
    unfold removeFirst at h
    by_cases hx : x = a
    · rw [if_pos hx] at h
      cases h
      subst hx
      exact (List.nodup_cons.mp hnd).1
    · rw [if_neg hx] at h
      cases hr : removeFirst a xs with
      | none => rw [hr] at h; cases h
      | some l2 =>
        rw [hr] at h
        cases h
        intro hmem
        rcases List.mem_cons.mp hmem with he | hmem2
        · exact hx he.symm
        · exact ih hr (List.nodup_cons.mp hnd).2 hmem2

theorem removeFirst_mem_of_ne {a x : String} (hxa : x ≠ a) :
    ∀ {l l' : List String}, removeFirst a l = some l' → x ∈ l →
      x ∈ l' := by
  intro l
  induction l with
  | nil => intro l' h; cases h
  | cons y ys ih =>
    intro l' h hmem
    unfold removeFirst at h
    by_cases hy : y = a
    · rw [if_pos hy] at h
      cases h
      rcases List.mem_cons.mp hmem with he | hmem2
      · exact absurd (he.trans hy) hxa
      · exact hmem2
    · rw [if_neg hy] at h
      cases hr : removeFirst a ys with
      | none => rw [hr] at h; cases h
      | some l2 =>
        rw [hr] at h
        cases h
        rcases List.mem_cons.mp hmem with he | hmem2
        · exact he ▸ List.mem_cons_self _ _
        · exact List.mem_cons_of_mem _ (ih hr hmem2)

theorem foldl_removeStep_none :
    ∀ (pairs : List (String × String)),
      pairs.foldl removeStep none = none := by
  intro pairs
  induction pairs with
  | nil => rfl
  | cons p rest ih => exact ih

theorem foldl_removeStep_spec :
    ∀ (pairs : List (String × String)) {l l' : List String},
      pairs.foldl removeStep (some l) = some l' →
      l'.Sublist l ∧
      (l.Nodup → ∀ p ∈ pairs, p.1 ∉ l') ∧
      (∀ x ∈ l, (∀ p ∈ pairs, x ≠ p.1) → x ∈ l') := by
  intro pairs
  induction pairs with
  | nil =>
    intro l l' h
    cases h
    exact ⟨List.Sublist.refl l, fun _ p hp => absurd hp (by simp),
      fun x hx _ => hx⟩
  | cons p rest ih =>
    intro l l' h
    rw [List.foldl_cons] at h
    cases hr : removeFirst p.1 l with
    | none =>
      rw [show removeStep (some l) p = none by
        simp [removeStep, hr]] at h
      rw [foldl_removeStep_none] at h
      cases h
    | some l1 =>
      rw [show removeStep (some l) p = some l1 by
        simp [removeStep, hr]] at h
      obtain ⟨hsub, hbad, hkeep⟩ := ih h
      have hsub1 := removeFirst_sublist hr
      refine ⟨hsub.trans hsub1, ?_, ?_⟩
      · intro hnd p' hp'
        rcases List.mem_cons.mp hp' with he | hmem
        · subst he
          exact fun hin =>
            removeFirst_not_mem hr hnd (hsub.subset hin)
        · exact hbad (hsub1.nodup hnd) p' hmem
      · intro x hx hne
        have hx1 : x ∈ l1 :=
          removeFirst_mem_of_ne (hne p (List.mem_cons_self p rest)) hr hx
        exact hkeep x hx1 (fun p' hp' => hne p' (List.mem_cons_of_mem p hp'))

theorem pyDictGet_append_singleton {α β : Type} [DecidableEq α]
    (l : List (α × β)) (k : α) (v : β) (x : α) :
    pyDictGet (l ++ [(k, v)]) x =
      if k = x then some v else pyDictGet l x := by
  induction l with
  | nil =>
    simp only [List.nil_append]
    unfold pyDictGet
    unfold pyDictGet
    by_cases hk : k = x <;> simp [hk]
  | cons p ps ih =>
    simp only [List.cons_append]
    unfold pyDictGet
    rw [ih]
    by_cases hk : k = x <;> simp [hk]

theorem foldl_insertRedundant_none :
    ∀ (pairs : List (String × String)),
      pairs.foldl insertRedundant none = none := by
  intro pairs
  induction pairs with
  | nil => rfl
  | cons p rest ih => exact ih

theorem foldl_insertRedundant_spec :
    ∀ (pairs : List (String × String)) {cur res : List (String × Nat)},
      pairs.foldl insertRedundant (some cur) = some res →
      (∀ x : String, (∀ p ∈ pairs, x ≠ p.1) →
        pyDictGet res x = pyDictGet cur x) ∧
      ((pairs.map Prod.fst).Nodup →
        (∀ p ∈ pairs, ∀ p2 ∈ pairs, p.2 ≠ p2.1) →
        ∀ p ∈ pairs, ∃ v, pyDictGet cur p.2 = some v ∧
          pyDictGet res p.1 = some v) := by
  intro pairs
  induction pairs with
  | nil =>
    intro cur res h
    cases h
    exact ⟨fun x _ => rfl, fun _ _ p hp => absurd hp (by simp)⟩
  | cons p rest ih =>
    intro cur res h
    rw [List.foldl_cons] at h
    cases hv : pyDictGet cur p.2 with
    | none =>
      rw [show insertRedundant (some cur) p = none by
        simp [insertRedundant, hv]] at h
      rw [foldl_insertRedundant_none] at h
      cases h
    | some v =>
      rw [show insertRedundant (some cur) p =
          some (cur ++ [(p.1, v)]) by simp [insertRedundant, hv]] at h
      obtain ⟨hstable, hins⟩ := ih h
      refine ⟨?_, ?_⟩
      · intro x hx
        rw [hstable x (fun p' hp' => hx p' (List.mem_cons_of_mem p hp')),
          pyDictGet_append_singleton,
          if_neg (fun he => hx p (List.mem_cons_self p rest) he.symm)]
      · intro hnd hgood p' hp'
        rcases List.mem_cons.mp hp' with he | hmem
        · subst he
          refine ⟨v, hv, ?_⟩
          rw [List.map_cons] at hnd
          have hcons := List.nodup_cons.mp hnd
          have hkeys : ∀ p2 ∈ rest, p'.1 ≠ p2.1 := by
            intro p2 hp2 he2
            exact hcons.1 (he2 ▸ List.mem_map_of_mem Prod.fst hp2)
          rw [hstable p'.1 hkeys, pyDictGet_append_singleton, if_pos rfl]
        · rw [List.map_cons] at hnd
          obtain ⟨v2, hv2, hres2⟩ := hins
            (List.nodup_cons.mp hnd).2
            (fun a ha b hb =>
              hgood a (List.mem_cons_of_mem p ha) b
                (List.mem_cons_of_mem p hb))
            p' hmem
          refine ⟨v2, ?_, hres2⟩
          rw [pyDictGet_append_singleton] at hv2
          rw [if_neg (fun he =>
            hgood p' (List.mem_cons_of_mem p hmem) p
              (List.mem_cons_self p rest) he.symm)] at hv2
          exact hv2

theorem pyDictGet_idxPairsFrom_lt {l : List String} :
    ∀ {m k : Nat}, k < m → pyDictGet (idxPairsFrom m l) k = none := by
  induction l with
  | nil => intro m k _; rfl
  | cons y ys ih =>
    intro m k hk
    unfold idxPairsFrom pyDictGet
    rw [ih (by omega : k < m + 1)]
    have hne : ¬ m = k := by omega
    simp [hne]

theorem pyDictGet_pairIdxFrom_not_mem {l : List String} :
    ∀ {m : Nat} {t : String}, t ∉ l →
      pyDictGet (pairIdxFrom m l) t = none := by
  induction l with
  | nil => intro m t _; rfl
  | cons y ys ih =>
    intro m t ht
    unfold pairIdxFrom pyDictGet
    rw [ih (fun hm => ht (List.mem_cons_of_mem y hm))]
    have hne : ¬ y = t := fun he => ht (he ▸ List.mem_cons_self y ys)
    simp [hne]

theorem pyDictGet_idxPairsFrom {ts : List String} :
    ∀ {n j : Nat}, pyDictGet (idxPairsFrom n ts) (n + j) = ts[j]? := by
  induction ts with
  | nil => intro n j; simp [idxPairsFrom, pyDictGet]
  | cons x xs ih =>
    intro n j
    unfold idxPairsFrom pyDictGet
    cases j with
    | zero =>
      rw [pyDictGet_idxPairsFrom_lt (by omega : n + 0 < n + 1)]
      simp
    | succ j' =>
      have harith : n + (j' + 1) = n + 1 + j' := by omega
      rw [harith, ih]
      cases hx : xs[j']? with
      | some s => simp [hx]
      | none =>
        have hne : ¬ n = n + 1 + j' := by omega
        simp [hx, hne]

theorem pyDictGet_idxPairsFrom_mem {ts : List String} :
    ∀ {n i : Nat} {s : String},
      pyDictGet (idxPairsFrom n ts) i = some s → s ∈ ts := by
  induction ts with
  | nil => intro n i s h; simp [idxPairsFrom, pyDictGet] at h
  | cons x xs ih =>
    intro n i s h
    unfold idxPairsFrom pyDictGet at h
    cases hg : pyDictGet (idxPairsFrom (n + 1) xs) i with
    | some s2 =>
      rw [hg] at h
      cases h
      exact List.mem_cons_of_mem x (ih hg)
    | none =>
      rw [hg] at h
      by_cases hn : n = i
      · simp [hn] at h
        exact h ▸ List.mem_cons_self x xs
      · simp [hn] at h

theorem pairIdxFrom_get_nodup {ts : List String} (hnd : ts.Nodup) :
    ∀ {n j : Nat} {t : String}, ts[j]? = some t →
      pyDictGet (pairIdxFrom n ts) t = some (n + j) := by
  induction ts with
  | nil => intro n j t h; simp at h
  | cons x xs ihx =>
    intro n j t h
    unfold pairIdxFrom pyDictGet
    cases j with
    | zero =>
      simp at h
      subst h
      rw [pyDictGet_pairIdxFrom_not_mem (List.nodup_cons.mp hnd).1]
      simp
    | succ j' =>
      have hxs : xs[j']? = some t := by simpa using h
      rw [ihx (List.nodup_cons.mp hnd).2 hxs]
      have harith : n + (j' + 1) = n + 1 + j' := by omega
      rw [harith]

theorem pairIdxFrom_mem {ts : List String} :
    ∀ {n : Nat} {t : String} {i : Nat},
      pyDictGet (pairIdxFrom n ts) t = some i → t ∈ ts := by
  induction ts with
  | nil => intro n t i h; simp [pairIdxFrom, pyDictGet] at h
  | cons x xs ih =>
    intro n t i h
    unfold pairIdxFrom pyDictGet at h
    cases hg : pyDictGet (pairIdxFrom (n + 1) xs) t with
    | some i2 =>
      rw [hg] at h
      exact List.mem_cons_of_mem x (ih hg)
    | none =>
      rw [hg] at h
      by_cases hx : x = t
      · exact hx ▸ List.mem_cons_self x xs
      · simp [hx] at h

/-! ### Claim theorem: C9 -/

/-- C9: after `_prepare_gaff` (run on a duplicate-free atom-type list that
contains the six redundant types and their replacements, as the shipped
GAFF XML does — the hypotheses here are success of `prepareGaff` and
`Nodup`), every atom type `t` that is not one of the six redundant types
satisfies `idx_2_str[str_2_idx[t]] == t`; each redundant type maps under
`str_2_idx` to the same index as its replacement type; and no redundant
type ever appears as a value of `idx_2_str`. -/
theorem prepare_gaff_dicts_spec (types : List String) (d : GaffDicts)
    (hp : prepareGaff types = some d) (hnd : types.Nodup) :
    (∀ t, t ∈ types → (∀ pr ∈ REDUNDANT_TYPES, t ≠ pr.1) →
      ∃ i, pyDictGet d.str_2_idx t = some i ∧
        pyDictGet d.idx_2_str i = some t) ∧
    (∀ pr ∈ REDUNDANT_TYPES,
      pyDictGet d.str_2_idx pr.1 = pyDictGet d.str_2_idx pr.2 ∧
      (pyDictGet d.str_2_idx pr.1).isSome = true) ∧
    (∀ (i : Nat) (s : String), pyDictGet d.idx_2_str i = some s →
      ∀ pr ∈ REDUNDANT_TYPES, s ≠ pr.1) := by
  unfold prepareGaff at hp
  cases hrm : removeRedundant types with
  | none => rw [hrm] at hp; cases hp
  | some ts =>
    rw [hrm] at hp
    simp only at hp
    cases hins : REDUNDANT_TYPES.foldl insertRedundant
        (some (pairIdxFrom 0 ts)) with
    | none => rw [hins] at hp; cases hp
    | some s2i =>
      rw [hins] at hp
      cases hp
      unfold removeRedundant at hrm
      obtain ⟨hsub, hbadnotin, hkeep⟩ := foldl_removeStep_spec _ hrm
      have hndts : ts.Nodup := hsub.nodup hnd
      obtain ⟨hstable, hinsert⟩ := foldl_insertRedundant_spec _ hins
      have hgoods : ∀ p ∈ REDUNDANT_TYPES, ∀ p2 ∈ REDUNDANT_TYPES,
          p.2 ≠ p2.1 := by decide
      have hkeysnd : (REDUNDANT_TYPES.map Prod.fst).Nodup := by decide
      refine ⟨?_, ?_, ?_⟩
      · intro t ht hnb
        have hts : t ∈ ts := hkeep t ht hnb
        obtain ⟨j, hj⟩ := List.getElem?_of_mem hts
        refine ⟨0 + j, ?_, ?_⟩
        · rw [hstable t hnb]
          exact pairIdxFrom_get_nodup hndts hj
        · rw [pyDictGet_idxPairsFrom]
          exact hj
      · intro pr hpr
        obtain ⟨v, hv, hres⟩ := hinsert hkeysnd hgoods pr hpr
        have hgood : pyDictGet s2i pr.2 = some v := by
          rw [hstable pr.2 (hgoods pr hpr)]
          exact hv
        exact ⟨hres.trans hgood.symm, by rw [hres]; rfl⟩
      · intro i s hs pr hpr he
        have hmem : s ∈ ts := pyDictGet_idxPairsFrom_mem hs
        exact hbadnotin hnd pr hpr (he ▸ hmem)

/-- The atom-type list of the C9 witness: the six replacement types, the
six redundant types and one further type. -/
def c9Types : List String :=
  ["cc", "ce", "cp", "pc", "pe", "nc",
   "cd", "cf", "cq", "pd", "pf", "nd", "c1"]

/-- The dictionaries `_prepare_gaff` builds from `c9Types`. -/
def c9Dicts : GaffDicts :=
  { str_2_idx :=
      [("cc", 0), ("ce", 1), ("cp", 2), ("pc", 3), ("pe", 4), ("nc", 5),
       ("c1", 6), ("cd", 0), ("cf", 1), ("cq", 2), ("pd", 3), ("pf", 4),
       ("nd", 5)],
    idx_2_str :=
      [(0, "cc"), (1, "ce"), (2, "cp"), (3, "pc"), (4, "pe"), (5, "nc"),
       (6, "c1")] }

/-- C9 witness: on a concrete atom-type list, the round trip holds for
`"c1"`, the redundant `"cd"` maps to the index of `"cc"`, and `"cc"` (a
value of `idx_2_str`) is not a redundant type. -/
theorem prepare_gaff_dicts_spec_witness :
    prepareGaff c9Types = some c9Dicts ∧
    (∃ i, pyDictGet c9Dicts.str_2_idx "c1" = some i ∧
      pyDictGet c9Dicts.idx_2_str i = some "c1") ∧
    pyDictGet c9Dicts.str_2_idx "cd" = pyDictGet c9Dicts.str_2_idx "cc" ∧
    ("cc" : String) ≠ "cd" := by
  have hp : prepareGaff c9Types = some c9Dicts := by decide
  have h := prepare_gaff_dicts_spec c9Types c9Dicts hp (by decide)
  refine ⟨hp, ?_, ?_, ?_⟩
  · exact h.1 "c1" (by decide) (by decide)
  · exact (h.2.1 ("cd", "cc") (by decide)).1
  · exact h.2.2 0 "cc" (by decide) ("cd", "cc") (by decide)

end Esp
